import Mathlib

/-!
Verification of the YANG load/store pipeline of `gnpy.yang.io`.

The development shallowly embeds the functions of `gnpy/yang/io.py`:
Python floats are modelled as rationals (`ℚ`), Python ints as `ℤ`/`ℕ`,
Python dicts as insertion-ordered association lists, and fallible code
as `Except Err`.  Numeric string round-trips (`float(str(x)) = x`) are
modelled as the identity on `ℚ`.
-/

namespace GnpyYang

/-- Python exception kinds raised by the load/store code. -/
inductive Err where
  | keyError (key : String)
  | valueError (msg : String)
  | notImplementedError (msg : String)
  | networkTopologyError (msg : String)
  | configurationError (msg : String)
  | stopIteration
deriving DecidableEq, Repr

instance {ε α : Type} [DecidableEq ε] [DecidableEq α] : DecidableEq (Except ε α) :=
  fun a b =>
    match a, b with
    | .error e, .error f => decidable_of_iff (e = f) (by simp)
    | .error _, .ok _ => isFalse (by simp)
    | .ok _, .error _ => isFalse (by simp)
    | .ok x, .ok y => decidable_of_iff (x = y) (by simp)

/-- Values stored in a Python object's attribute dictionary (`__dict__`).
Only the shapes actually used by amplifier records are needed. -/
inductive AVal where
  | pynone
  | str (s : String)
  | num (q : ℚ)
  | bool (b : Bool)
  | tuple4 (a b c d : ℚ)
  | dual (preamp booster : String)
  | nums (l : List ℚ)
  | vg (nf1 nf2 deltaP origNfMin origNfMax : ℚ)
  | orIla (a b c d : ℚ)
  | orPre
  | orBoost
deriving DecidableEq, Repr

/-- First-match lookup in an insertion-ordered association list
(Python dict / object attribute access). -/
def alookup {κ β : Type} [DecidableEq κ] : List (κ × β) → κ → Option β
  | [], _ => none
  | (k', v) :: rest, k => if k' = k then some v else alookup rest k

/-- Update the first binding of a key, or append a new binding
(Python dict assignment / `setattr`). -/
def aset {κ β : Type} [DecidableEq κ] : List (κ × β) → κ → β → List (κ × β)
  | [], k, v => [(k, v)]
  | (k', v') :: rest, k, v =>
    if k' = k then (k, v) :: rest else (k', v') :: aset rest k v

/-- A Python amplifier object observed through its `__dict__`:
an insertion-ordered list of attribute bindings. -/
abbrev AmpObj := List (String × AVal)

/-- The amplifier table `Dict[str, Amp]` of `_fixup_dual_stage`. -/
abbrev AmpTable := List (String × AmpObj)

/-- `amp.dual_stage_model`, `None` and ill-typed attributes both reading
as "not a composite" (the loader always materialises the attribute). -/
def AmpObj.dualStage (a : AmpObj) : Option (String × String) :=
  match alookup a "dual_stage_model" with
  | some (AVal.dual p b) => some (p, b)
  | _ => none

/-- `for attr in src.__dict__.keys(): setattr(dst, pre + attr, getattr(src, attr))` -/
def copyAttrs (dst : AmpObj) (pre : String) (src : AmpObj) : AmpObj :=
  src.foldl (fun acc kv => aset acc (pre ++ kv.1) kv.2) dst

/-- The complete attribute copy performed on one composite record:
first the `preamp_`-prefixed copy, then the `booster_`-prefixed copy. -/
def fullCopy (a preamp booster : AmpObj) : AmpObj :=
  copyAttrs (copyAttrs a "preamp_" preamp) "booster_" booster

/-- One iteration of the `_fixup_dual_stage` loop, for the entry `name`:
skip non-composites, look up the preamp and the booster (a missing name
raises `KeyError`), then copy both attribute sets onto the composite. -/
def resolveOne (amps : AmpTable) (name : String) : Except Err AmpTable :=
  match alookup amps name with
  | none => .ok amps
  | some amp =>
    match amp.dualStage with
    | none => .ok amps
    | some (p, b) =>
      match alookup amps p with
      | none => .error (.keyError p)
      | some preamp =>
        match alookup amps b with
        | none => .error (.keyError b)
        | some booster => .ok (aset amps name (fullCopy amp preamp booster))

/-- The `_fixup_dual_stage` loop over a fixed name sequence.  On a raised
exception the mutated table (`amps` is updated in place in Python) is
still observable by the caller, so the error case carries the state. -/
def fixupGo : List String → AmpTable → Option Err × AmpTable
  | [], t => (none, t)
  | n :: rest, t =>
    match resolveOne t n with
    | .error e => (some e, t)
    | .ok t' => fixupGo rest t'

/-- `_fixup_dual_stage(amps)`: iterate over the table's keys in insertion
order, resolving every composite entry in place. -/
def fixupDualStage (t : AmpTable) : Option Err × AmpTable :=
  fixupGo (t.map Prod.fst) t

/-- The relation between an amplifier table and a (possibly partial)
output of the dual-stage resolver: the key sequence is unchanged and
every entry is either its original value or its original value with the
complete `preamp_`/`booster_` attribute copies applied — never a
half-copied state. -/
def ResolvedFrom (t0 t : AmpTable) : Prop :=
  t.map Prod.fst = t0.map Prod.fst ∧
  ∀ n, alookup t n = alookup t0 n ∨
    ∃ orig p b P B, alookup t0 n = some orig ∧ orig.dualStage = some (p, b) ∧
      alookup t0 p = some P ∧ alookup t0 b = some B ∧
      alookup t n = some (fullCopy orig P B)

/-- Every attribute dictionary of the table has unique keys (always true
of a Python object's `__dict__`). -/
def WFDicts (t0 : AmpTable) : Prop :=
  ∀ n a, alookup t0 n = some a → (a.map Prod.fst).Nodup

/-- Every composite reference that resolves points at a non-composite
entry (the spec's "flat one-level composition only"). -/
def WFRefs (t0 : AmpTable) : Prop :=
  ∀ n a p b, alookup t0 n = some a → a.dualStage = some (p, b) →
    (∀ P, alookup t0 p = some P → P.dualStage = none) ∧
    (∀ B, alookup t0 b = some B → B.dualStage = none)

/-- Every composite reference resolves in the table. -/
def RefsExist (t0 : AmpTable) : Prop :=
  ∀ n a p b, alookup t0 n = some a → a.dualStage = some (p, b) →
    (∃ P, alookup t0 p = some P) ∧ (∃ B, alookup t0 b = some B)

/-! ## Unit conversion constants

`gnpy.yang.conversion` is not among the provided sources. -/

/-- Modelled from the spec: the terahertz→hertz conversion factor of the
missing `gnpy.yang.conversion` module (§2 "Unit/Conversion Table"). -/
def THZ : ℚ := 10 ^ 12

/-- Modelled from the spec: the gigahertz→hertz conversion factor of the
missing `gnpy.yang.conversion` module (§2 "Unit/Conversion Table"). -/
def GIGA : ℚ := 10 ^ 9

/-- Modelled from the spec: `gnpy.core.science_utils.estimate_nf_model`
(the provided copy of `science_utils.py` does not contain it).  The spec
(§3) only says the variable-gain noise-figure model is a min/max-derived
fit `(nf1, nf2, delta_p)`; no claim depends on the concrete values, so a
deterministic representative computed from the same arguments is used. -/
def estimate_nf_model (_typeVariety : String) (gainMin gainFlatmax nfMin nfMax : ℚ) :
    ℚ × ℚ × ℚ :=
  (nfMin, nfMax, gainFlatmax - gainMin)

/-! ## Equipment records (`gnpy.tools.json_io` dataclasses)

`gnpy/tools/json_io.py` is not among the provided sources; the record
shapes below are modelled from the spec (§3) and from the attribute
accesses in `io.py`. -/

/-- Modelled from the spec: the noise-figure model variants
(`Model_fg`, `Model_vg`, `Model_openroadm_ila`, `Model_openroadm_preamp`,
`Model_openroadm_booster` of the missing `json_io` module), with the
fields read by `io.py` (`nf0`, `orig_nf_min`/`orig_nf_max`, `nf_coef`). -/
inductive NFModel where
  | fg (nf0 : ℚ)
  | vg (nf1 nf2 deltaP origNfMin origNfMax : ℚ)
  | openroadmIla (a b c d : ℚ)
  | openroadmPreamp
  | openroadmBooster
deriving DecidableEq, Repr

/-- Modelled from the spec: the `json_io.Amp` record, with exactly the
keyword arguments passed by `_transform_edfa` (missing module). -/
structure Amp where
  type_variety : String
  type_def : Option String
  f_min : Option ℚ
  f_max : Option ℚ
  gain_min : ℚ
  gain_flatmax : Option ℚ
  p_max : Option ℚ
  nf_fit_coeff : Option (ℚ × ℚ × ℚ × ℚ)
  nf_ripple : Option (List ℚ)
  dgt : Option (List ℚ)
  gain_ripple : Option (List ℚ)
  out_voa_auto : Option Bool
  allowed_for_design : Bool
  raman : Bool
  nf_model : Option NFModel
  dual_stage_model : Option (String × String)
deriving DecidableEq, Repr

/-- A validated `tip-photonic-equipment:amplifier` YANG entry as accessed
by `_transform_edfa` and produced by `_store_equipment_edfa`: each
optional sub-structure or leaf is `none` when the key is absent.
decimal64 leaves already parsed into rationals (string/float round-trips
are exact and modelled as the identity). -/
structure EdfaYang where
  type : String
  gainMin : ℚ
  composite : Option (String × String)
  polynomialNF : Option (ℚ × ℚ × ℚ × ℚ)
  openroadmILA : Option (ℚ × ℚ × ℚ × ℚ)
  openroadmPreamp : Option Unit
  openroadmBooster : Option Unit
  minMaxNF : Option (ℚ × ℚ)
  ramanApprox : Option ℚ
  gainFlatmax : Option ℚ
  frequencyMin : Option ℚ
  frequencyMax : Option ℚ
  maxPowerOut : Option ℚ
  hasOutputVoa : Option Bool
  gainRipple : Option (List (ℤ × ℚ))
  dynamicGainTilt : Option (List (ℤ × ℚ))
  nfRipple : Option (List (ℤ × ℚ))
deriving DecidableEq, Repr

/-- `yangish[key]` on a required leaf: a missing key raises `KeyError`. -/
def reqQ {α : Type} (o : Option α) (key : String) : Except Err α :=
  match o with
  | some v => .ok v
  | none => .error (.keyError key)

/-! ## Spectrum interpolation (`_extract_per_spectrum`) -/

/-- The sample grid `int(191.3e12 + channel * 50e9)` of
`_extract_per_spectrum`; both addends and the sum are integers below
2^53, so the Python float arithmetic is exact. -/
def gridFreq (channel : ℕ) : ℤ :=
  191300000000000 + channel * 50000000000

/-- `np.interp` on a frequency-ascending `(frequency, value)` list:
values clamp to the nearest endpoint outside the input range and are
linearly interpolated inside it.  (`np.interp` is fed separate `keys`
and `values` lists obtained by projecting the sorted pair list; here the
pair list is consumed directly.) -/
def interpPairs (x : ℤ) : List (ℤ × ℚ) → ℚ
  | [] => 0
  | [(_, v0)] => v0
  | (x0, v0) :: (x1, v1) :: rest =>
    if x ≤ x0 then v0
    else if x ≤ x1 then v0 + (v1 - v0) * ((x : ℚ) - (x0 : ℚ)) / ((x1 : ℚ) - (x0 : ℚ))
    else interpPairs x ((x1, v1) :: rest)

/-- `data.sort(key=lambda tup: tup[0])`: stable sort of the
`(frequency, value)` pairs by frequency ascending. -/
def sortByFreq (l : List (ℤ × ℚ)) : List (ℤ × ℚ) :=
  List.insertionSort (fun a b => a.1 ≤ b.1) l

/-- `_extract_per_spectrum(key, yang)`: `(0,)` when the key is absent,
otherwise the sorted data resampled on the 96-channel 50 GHz grid. -/
def extractPerSpectrum (o : Option (List (ℤ × ℚ))) : List ℚ :=
  match o with
  | none => [0]
  | some l =>
    let data := sortByFreq l
    (List.range 96).map (fun channel => interpPairs (gridFreq channel) data)

/-! ## `_transform_edfa` -/

/-- `_transform_edfa(edfa)`: classify the noise-figure model by the
`if/elif` chain over the optional sub-structures (composite short-cuts
the whole scalar extraction), then extract the common scalar fields and
the three per-frequency spectra. -/
def transformEdfa (edfa : EdfaYang) : Except Err Amp := do
  let name := edfa.type
  match edfa.composite with
  | some (p, b) =>
    return { type_variety := name, type_def := some "dual_stage", f_min := none,
             f_max := none, gain_min := edfa.gainMin, gain_flatmax := none,
             p_max := none, nf_fit_coeff := none, nf_ripple := none, dgt := none,
             gain_ripple := none, out_voa_auto := none, allowed_for_design := true,
             raman := false, nf_model := none, dual_stage_model := some (p, b) }
  | none => do
    let (type_def, nf_model, nf_fit_coeff) ←
      if let some (a, b, c, d) := edfa.polynomialNF then
        pure (some "advanced_model", (none : Option NFModel), some (a, b, c, d))
      else if let some (a, b, c, d) := edfa.openroadmILA then
        pure (some "openroadm", some (NFModel.openroadmIla a b c d), none)
      else if edfa.openroadmPreamp.isSome then
        pure (some "openroadm_preamp", none, none)
      else if edfa.openroadmBooster.isSome then
        pure (some "openroadm_booster", none, none)
      else if let some (nfMin, nfMax) := edfa.minMaxNF then do
        let gfm ← reqQ edfa.gainFlatmax "gain-flatmax"
        let (nf1, nf2, deltaP) := estimate_nf_model name edfa.gainMin gfm nfMin nfMax
        pure (some "variable_gain", some (NFModel.vg nf1 nf2 deltaP nfMin nfMax), none)
      else if let some nf := edfa.ramanApprox then
        pure (some "advanced_model", none, some ((0 : ℚ), (0 : ℚ), (0 : ℚ), nf))
      else
        throw (Err.notImplementedError ("Internal error: EDFA model " ++ name ++
          ": unrecognized amplifier NF model for EDFA. Error in the YANG validation code."))
    let gain_flatmax ← reqQ edfa.gainFlatmax "gain-flatmax"
    let f_min ← reqQ edfa.frequencyMin "frequency-min"
    let f_max ← reqQ edfa.frequencyMax "frequency-max"
    let p_max ← reqQ edfa.maxPowerOut "max-power-out"
    let gain_ripple := extractPerSpectrum edfa.gainRipple
    let dgt := extractPerSpectrum edfa.dynamicGainTilt
    let nf_ripple := extractPerSpectrum edfa.nfRipple
    return { type_variety := name, type_def := type_def, f_min := some (f_min * THZ),
             f_max := some (f_max * THZ), gain_min := edfa.gainMin,
             gain_flatmax := some gain_flatmax, p_max := some p_max,
             nf_fit_coeff := nf_fit_coeff, nf_ripple := some nf_ripple,
             dgt := some dgt, gain_ripple := some gain_ripple, out_voa_auto := none,
             allowed_for_design := true, raman := false, nf_model := nf_model,
             dual_stage_model := none }

/-! ## `_store_equipment_edfa` -/

/-- Attribute access on a record field that the store arithmetic needs
(`edfa.f_min / THZ` with `f_min = None` raises a `TypeError`). -/
def reqAttr {α : Type} (o : Option α) (attr : String) : Except Err α :=
  match o with
  | some v => .ok v
  | none => .error (.valueError ("TypeError: " ++ attr ++ " is None"))

/-- `_store_equipment_edfa(name, edfa)`: the composite branch emits only
the type, minimum gain and the composite sub-structure; otherwise the
scalar leaves are emitted and the noise-figure sub-structure is chosen by
the `isinstance` chain over `edfa.nf_model`, falling back to
`polynomial-NF` for `advanced_model` records and to a silent omission
otherwise.  The three spectra are never emitted (`FIXME` in source). -/
def storeEquipmentEdfa (name : String) (edfa : Amp) : Except Err EdfaYang := do
  match edfa.dual_stage_model with
  | some (p, b) =>
    return { type := name, gainMin := edfa.gain_min, composite := some (p, b),
             polynomialNF := none, openroadmILA := none, openroadmPreamp := none,
             openroadmBooster := none, minMaxNF := none, ramanApprox := none,
             gainFlatmax := none, frequencyMin := none, frequencyMax := none,
             maxPowerOut := none, hasOutputVoa := none, gainRipple := none,
             dynamicGainTilt := none, nfRipple := none }
  | none => do
    let f_min ← reqAttr edfa.f_min "f_min"
    let f_max ← reqAttr edfa.f_max "f_max"
    let gain_flatmax ← reqAttr edfa.gain_flatmax "gain_flatmax"
    let p_max ← reqAttr edfa.p_max "p_max"
    let base : EdfaYang :=
      { type := name, gainMin := edfa.gain_min, composite := none,
        polynomialNF := none, openroadmILA := none, openroadmPreamp := none,
        openroadmBooster := none, minMaxNF := none, ramanApprox := none,
        gainFlatmax := some gain_flatmax, frequencyMin := some (f_min / THZ),
        frequencyMax := some (f_max / THZ), maxPowerOut := some p_max,
        hasOutputVoa := edfa.out_voa_auto, gainRipple := none,
        dynamicGainTilt := none, nfRipple := none }
    match edfa.nf_model with
    | some (.fg nf0) =>
      if nf0 < 3 then return { base with ramanApprox := some nf0 }
      else return { base with polynomialNF := some (0, 0, 0, nf0) }
    | some (.vg _ _ _ origNfMin origNfMax) =>
      return { base with minMaxNF := some (origNfMin, origNfMax) }
    | some (.openroadmIla a b c d) =>
      return { base with openroadmILA := some (a, b, c, d) }
    | some .openroadmPreamp => return { base with openroadmPreamp := some () }
    | some .openroadmBooster => return { base with openroadmBooster := some () }
    | none =>
      if edfa.type_def = some "advanced_model" then do
        let co ← reqAttr edfa.nf_fit_coeff "nf_fit_coeff"
        return { base with polynomialNF := some co }
      else
        return base

/-! ## Network elements (`gnpy.core.elements`)

`gnpy/core/elements.py` is not among the provided sources; the element
variants below are modelled from the spec (§3 "Network graph") with
exactly the attributes read and written by `io.py`. -/

/-- `elements.Location(longitude=…, latitude=…)`. -/
structure Location where
  latitude : ℚ
  longitude : ℚ
deriving DecidableEq, Repr

/-- The `operational` dict handed to `elements.Edfa` and read back by
`_store_topology` (`gain_target`, `tilt_target`, `out_voa`, `delta_p`). -/
structure EdfaOperational where
  gain_target : Option ℚ
  tilt_target : Option ℚ
  out_voa : Option ℚ
  delta_p : Option ℚ
deriving DecidableEq, Repr

/-- The attributes of a `json_io.Roadm` equipment record accessed by
`io.py` (`_transform_roadm` construction and `params` copy). -/
structure RoadmEq where
  target_pch_out_db : ℚ
  add_drop_osnr : ℚ
  pmd : ℚ
  preamp_variety_list : List String
  booster_variety_list : List String
deriving DecidableEq, Repr

/-- Modelled from the spec: a ROADM element's `params` (§3: per-next-hop
target power mapping keyed by downstream node id, on top of the copied
equipment record). -/
structure RoadmParams where
  target_pch_out_db : ℚ
  add_drop_osnr : ℚ
  pmd : ℚ
  preamp_variety_list : List String
  booster_variety_list : List String
  per_degree_pch_out_db : List (String × ℚ)
deriving DecidableEq, Repr

/-- The attributes of a `json_io.Fiber` equipment record accessed by
`io.py` (`dispersion`, `gamma`, `pmd_coef`; `dispersion_slope` is kept
for completeness). -/
structure FiberEq where
  dispersion : ℚ
  dispersion_slope : ℚ
  gamma : ℚ
  pmd_coef : ℚ
deriving DecidableEq, Repr

/-- Modelled from the spec: a Fiber element's `params` (§3: length and
losses in SI units; `elements.Fiber` normalizes the `length_units='km'`
length handed over by `_load_network` to meters, which is why
`_store_topology` multiplies it by `1e-3` on the way out). -/
structure FiberParams where
  length : ℚ
  loss_coef : ℚ
  att_in : ℚ
  con_in : ℚ
  con_out : ℚ
  dispersion : ℚ
  gamma : ℚ
  pmd_coef : ℚ
deriving DecidableEq, Repr

/-- The network element variants (§3: {Transceiver, Edfa, Roadm,
Fused(attenuator), Fiber}), with the attributes used by `io.py`.
A missing `type_variety` (`hasattr` check in `_store_topology`) is
modelled as `none`. -/
inductive Element where
  | edfa (uid : String) (type_variety : String) (params : Amp)
      (metadata : Option Location) (operational : EdfaOperational)
  | roadm (uid : String) (type_variety : Option String) (params : RoadmParams)
      (metadata : Option Location)
  | transceiver (uid : String) (type_variety : Option String) (metadata : Option Location)
  | fused (uid : String) (loss : Option ℚ)
  | fiber (uid : String) (type_variety : String) (params : FiberParams)
      (metadata : Option Location)
deriving DecidableEq, Repr

/-- `n.uid`. -/
def Element.uid : Element → String
  | .edfa u _ _ _ _ => u
  | .roadm u _ _ _ => u
  | .transceiver u _ _ => u
  | .fused u _ => u
  | .fiber u _ _ _ => u

/-- `n.metadata['location']` (`none` both for `metadata=None` and for an
absent location). -/
def Element.location : Element → Option Location
  | .edfa _ _ _ md _ => md
  | .roadm _ _ _ md => md
  | .transceiver _ _ md => md
  | .fused _ _ => none
  | .fiber _ _ _ md => md

/-- `isinstance(n, elements.Fiber)`. -/
def isFiberElem : Element → Bool
  | .fiber _ _ _ _ => true
  | _ => false

/-- The loaded network: elements in insertion order plus directed edges
`(source uid, destination uid) ↦ weight`.  The spec (§9) endorses the
identifier-keyed view of the `networkx.DiGraph` of the source. -/
structure Network where
  nodes : List Element
  edges : List ((String × String) × ℚ)
deriving DecidableEq, Repr

/-- `nodes[uid]`: first element with the given identifier. -/
def findNode (ns : List Element) (uid : String) : Option Element :=
  match ns with
  | [] => none
  | n :: rest => if n.uid = uid then some n else findNode rest uid

/-- `network.add_edge(u, v, weight=w)`: a repeated `(u, v)` edge keeps a
single arc whose weight is the last assignment. -/
def addEdge (es : List ((String × String) × ℚ)) (uv : String × String) (w : ℚ) :
    List ((String × String) × ℚ) :=
  aset es uv w

/-- The slice of the equipment library consulted by the topology code:
`equipment['Edfa']`, `equipment['Roadm']`, `equipment['Fiber']`, and the
key sequence of `equipment['Transceiver']` (only the keys are read by
`_store_topology`). -/
structure Equipment where
  edfa : List (String × Amp)
  roadm : List (String × RoadmEq)
  fiberTypes : List (String × FiberEq)
  transceiverTypes : List String
deriving Repr

/-! ## Topology input documents (`_load_network`) -/

/-- `tip-photonic-topology:geo-location` with its optional `x`/`y`. -/
structure GeoLoc where
  x : Option ℚ
  y : Option ℚ
deriving DecidableEq, Repr

/-- The `tip-photonic-topology:amplifier` node sub-structure. -/
structure AmpNodeYang where
  model : String
  gainTarget : Option ℚ
  tiltTarget : Option ℚ
  outVoaTarget : Option ℚ
  deltaP : Option ℚ
deriving DecidableEq, Repr

/-- An `ietf-network:node` as accessed by `_load_network`: the four
classifying sub-structures are each optional (the attenuator carries its
optional `attenuation`, the roadm and transceiver just their `model`). -/
structure TopoNode where
  nodeId : String
  geoLocation : Option GeoLoc
  amplifier : Option AmpNodeYang
  roadm : Option String
  transceiver : Option String
  attenuator : Option (Option ℚ)
deriving DecidableEq, Repr

/-- The `tip-photonic-topology:fiber` link sub-structure. -/
structure FiberLinkYang where
  ftype : String
  length : ℚ
  lossPerKm : ℚ
  attenuationIn : ℚ
  connAttIn : ℚ
  connAttOut : ℚ
deriving DecidableEq, Repr

/-- An `ietf-network-topology:link`: `fiber` and `patch` sub-structures
are optional and tested in this order by the `if/elif` chain; the patch
carries its optional `roadm-target-egress-per-channel-power`. -/
structure LinkYang where
  linkId : String
  sourceNode : String
  destNode : String
  fiber : Option FiberLinkYang
  patch : Option (Option ℚ)
deriving DecidableEq, Repr

/-- The `location` derived from a node's optional geo-location (both
`x` and `y` must be present). -/
def nodeLocation (node : TopoNode) : Option Location :=
  match node.geoLocation with
  | some loc =>
    match loc.x, loc.y with
    | some x, some y => some { longitude := x, latitude := y }
    | _, _ => none
  | none => none

/-- The per-node body of `_load_network`: derive the location, then
classify the node by the `if/elif` chain over the four sub-structures;
the equipment lookups (`equipment['Edfa'][model]`,
`equipment['Roadm'][model]`) raise `KeyError` on unknown type names. -/
def loadNode (equipment : Equipment) (node : TopoNode) : Except Err Element := do
  let location : Option Location := nodeLocation node
  if let some amp := node.amplifier then do
    let type_variety := amp.model
    let params ← reqQ (alookup equipment.edfa type_variety) type_variety
    return .edfa node.nodeId type_variety params location
      { gain_target := amp.gainTarget, tilt_target := some (amp.tiltTarget.getD 0),
        out_voa := amp.outVoaTarget, delta_p := amp.deltaP }
  else if let some model := node.roadm then do
    let r ← reqQ (alookup equipment.roadm model) model
    return .roadm node.nodeId (some model)
      { target_pch_out_db := r.target_pch_out_db, add_drop_osnr := r.add_drop_osnr,
        pmd := r.pmd, preamp_variety_list := r.preamp_variety_list,
        booster_variety_list := r.booster_variety_list, per_degree_pch_out_db := [] }
      location
  else if let some model := node.transceiver then
    return .transceiver node.nodeId (some model) location
  else if let some att := node.attenuator then
    return .fused node.nodeId att
  else
    throw (.valueError ("Internal error: unrecognized network node " ++ node.nodeId ++
      " which was expected to belong to the photonic-topology"))

/-- Modelled from the spec: the Fiber node's synthesized midpoint
location (§4.5; "fails or omits if either endpoint lacks location —
treat as optional metadata"; `elements` is not among the sources, so the
omitting variant is used). -/
def midLocation : Option Location → Option Location → Option Location
  | some a, some b =>
    some { latitude := (a.latitude + b.latitude) / 2,
           longitude := (a.longitude + b.longitude) / 2 }
  | _, _ => none

/-- The first link pass of `_load_network`: materialize a Fiber element
for every fiber-type link (looking up its fiber type in the equipment
library and its endpoints in the node table), skip patch links, and
reject unrecognized link kinds. -/
def firstLinkPass (equipment : Equipment) (start : List Element)
    (links : List LinkYang) : Except Err (List Element) :=
  links.foldlM (fun ns l =>
    match l.fiber with
    | some f => do
      let specs ← reqQ (alookup equipment.fiberTypes f.ftype) f.ftype
      let src ← reqQ (findNode ns l.sourceNode) l.sourceNode
      let dst ← reqQ (findNode ns l.destNode) l.destNode
      let el := Element.fiber l.linkId f.ftype
        { length := f.length * 1000, loss_coef := f.lossPerKm,
          att_in := f.attenuationIn, con_in := f.connAttIn, con_out := f.connAttOut,
          dispersion := specs.dispersion, gamma := specs.gamma,
          pmd_coef := specs.pmd_coef }
        (midLocation src.location dst.location)
      pure (ns ++ [el])
    | none =>
      match l.patch with
      | some _ => pure ns
      | none => throw (Err.valueError ("Internal error: unrecognized network link " ++
          l.linkId ++ " which was expected to belong to the photonic-topology")))
    start

/-- The value left in the local variable `fiber` after the first link
pass: the sub-structure of the last fiber-type link.  The second pass
reads this stale variable instead of re-binding it per link. -/
def staleFiberVar (links : List LinkYang) : Option FiberLinkYang :=
  links.foldl (fun acc l => match l.fiber with | some f => some f | none => acc) none

/-- The second link pass of `_load_network`: for a fiber-type link add
the ingress edge `source→fiber` — whose weight is
`float(fiber['length'].value)` with `fiber` the stale variable from the
first pass — and the egress edge `fiber→destination` with weight 0.01;
for a patch link add one 0.01-weight edge and record any per-degree
target power on the source ROADM's `per_degree_pch_out_db`. -/
def secondLinkPass (start : List Element) (links : List LinkYang)
    (lastFiber : Option FiberLinkYang) :
    Except Err (List Element × List ((String × String) × ℚ)) :=
  links.foldlM (fun st l =>
    match l.fiber with
    | some _ =>
      -- the stale variable is necessarily bound here: this fiber link
      -- itself bound it during the first pass
      let w := match lastFiber with | some f => f.length | none => 0
      pure (st.1, addEdge (addEdge st.2 (l.sourceNode, l.linkId) w)
        (l.linkId, l.destNode) (1 / 100))
    | none =>
      match l.patch with
      | some p =>
        let edges := addEdge st.2 (l.sourceNode, l.destNode) (1 / 100)
        match p with
        | some power => do
          let src ← reqQ (findNode st.1 l.sourceNode) l.sourceNode
          match src with
          | .roadm uid tv params md =>
            let params' := { params with
              per_degree_pch_out_db := aset params.per_degree_pch_out_db l.destNode power }
            pure (st.1.map (fun n => if n.uid = l.sourceNode then
              Element.roadm uid tv params' md else n), edges)
          | _ => throw (Err.valueError
              "AttributeError: node has no params.per_degree_pch_out_db")
        | none => pure (st.1, edges)
      | none => throw (Err.valueError ("Internal error: unrecognized network link " ++
          l.linkId ++ " which was expected to belong to the photonic-topology")))
    (start, ([] : List ((String × String) × ℚ)))

/-- The body of `_load_network` for one photonic-topology network:
instantiate the elements, run the two link passes, and assemble the
directed graph. -/
def loadPhotonicNetwork (equipment : Equipment) (topoNodes : List TopoNode)
    (links : List LinkYang) : Except Err Network := do
  let elems ← topoNodes.foldlM (fun ns nd => do
    let el ← loadNode equipment nd
    pure (ns ++ [el])) []
  let elems2 ← firstLinkPass equipment elems links
  let (elems3, edges) ← secondLinkPass elems2 links (staleFiberVar links)
  return { nodes := elems3, edges := edges }

/-! ## Topology serialization (`_store_topology`) -/

/-- One entry of the emitted `node` list, per element kind. -/
inductive NodeEntry where
  | transceiver (nodeId model : String)
  | amplifier (nodeId model : String)
      (gainTarget deltaP tiltTarget outVoaTarget : Option ℚ)
  | roadm (nodeId model : String) (targetEgressPower : ℚ)
  | attenuator (nodeId : String) (attenuation : Option ℚ)
deriving DecidableEq, Repr

/-- The fiber payload of an emitted link entry (`length` back in km). -/
structure FiberEntryData where
  ftype : String
  length : ℚ
  attenuationIn : ℚ
  connAttIn : ℚ
  connAttOut : ℚ
deriving DecidableEq, Repr

/-- One entry of the emitted `ietf-network-topology:link` list
(`_json_yang_link` plus the kind-specific payload; a patch entry's
payload is its optional per-channel power). -/
structure LinkEntry where
  linkId : String
  sourceNode : String
  destNode : String
  fiber : Option FiberEntryData
  patch : Option (Option ℚ)
deriving DecidableEq, Repr

/-- `network.predecessors(n)`: sources of the arcs into `uid`, in edge
insertion order. -/
def predecessors (edges : List ((String × String) × ℚ)) (uid : String) : List String :=
  edges.filterMap (fun e => if e.1.2 = uid then some e.1.1 else none)

/-- `network.successors(n)`: targets of the arcs out of `uid`, in edge
insertion order. -/
def successors (edges : List ((String × String) × ℚ)) (uid : String) : List String :=
  edges.filterMap (fun e => if e.1.1 = uid then some e.1.2 else none)

/-- `_json_yang_link(uid, source, destination, extra)`: assemble one
link entry; `extra` is either the fiber payload or the patch payload. -/
def jsonYangLink (uid source destination : String) (fiber : Option FiberEntryData)
    (patch : Option (Option ℚ)) : LinkEntry :=
  { linkId := uid, sourceNode := source, destNode := destination,
    fiber := fiber, patch := patch }

/-- The fiber payload of the link entry emitted for a Fiber element
(`length` converted back to km via `* 1e-3`). -/
def fiberPayload (tv : String) (params : FiberParams) : FiberEntryData :=
  { ftype := tv, length := params.length * (1 / 1000),
    attenuationIn := params.att_in, connAttIn := params.con_in,
    connAttOut := params.con_out }

/-- The node loop of `_store_topology`: emit one node entry per element
(and, for Fiber elements, one logical link entry from
`next(predecessors)` to `next(successors)`).  A Transceiver without a
`type_variety` is mutated in place to the first key of
`equipment['Transceiver']`; a Roadm without one raises a topology error;
a Fiber with no predecessor or no successor raises `StopIteration`. -/
def storeNodeStep (eq : Equipment) (net : Network)
    (acc : List NodeEntry × List LinkEntry × List Element) (n : Element) :
    Except Err (List NodeEntry × List LinkEntry × List Element) :=
  match n with
    | .transceiver uid tv md => do
      let tv' ← match tv with
        | some t => pure t
        | none =>
          -- n.type_variety = next(iter(equipment['Transceiver']))
          match eq.transceiverTypes with
          | [] => throw Err.stopIteration
          | k :: _ => pure k
      pure (acc.1 ++ [NodeEntry.transceiver uid tv'], acc.2.1,
        acc.2.2 ++ [Element.transceiver uid (some tv') md])
    | .edfa uid tv _ _ op =>
      pure (acc.1 ++ [NodeEntry.amplifier uid tv op.gain_target op.delta_p
        op.tilt_target op.out_voa], acc.2.1, acc.2.2 ++ [n])
    | .roadm uid tv params _ =>
      match tv with
      | none => throw (Err.networkTopologyError
          ("Legacy JSON doesn't specify type_variety for " ++ uid))
      | some t =>
        pure (acc.1 ++ [NodeEntry.roadm uid t params.target_pch_out_db], acc.2.1,
          acc.2.2 ++ [n])
    | .fused uid loss =>
      pure (acc.1 ++ [NodeEntry.attenuator uid loss], acc.2.1, acc.2.2 ++ [n])
    | .fiber uid tv params _ =>
      match predecessors net.edges uid, successors net.edges uid with
      | ingress :: _, egress :: _ =>
        pure (acc.1,
          acc.2.1 ++ [jsonYangLink uid ingress egress (some (fiberPayload tv params)) none],
          acc.2.2 ++ [n])
      | [], _ => throw Err.stopIteration
      | _ :: _, [] => throw Err.stopIteration

/-- The complete node loop: fold `storeNodeStep` over the element list. -/
def storeNodePass (eq : Equipment) (net : Network) :
    Except Err (List NodeEntry × List LinkEntry × List Element) :=
  net.nodes.foldlM (storeNodeStep eq net)
    (([] : List NodeEntry), ([] : List LinkEntry), ([] : List Element))

/-- The edge loop of `_store_topology`: skip every arc with a Fiber
endpoint — raising a topology error that names both identifiers when
both endpoints are Fibers — and emit a patch entry for the rest, with
the source ROADM's per-degree power (or its default target power). -/
def storeEdgeStep (elems : List Element) (acc : List LinkEntry)
    (e : (String × String) × ℚ) : Except Err (List LinkEntry) := do
    let a ← reqQ (findNode elems e.1.1) e.1.1
    let b ← reqQ (findNode elems e.1.2) e.1.2
    match a with
    | .fiber ua _ _ _ =>
      match b with
      | .fiber ub _ _ _ =>
        throw (Err.networkTopologyError
          ("Fiber connected to a Fiber: " ++ ua ++ ", " ++ ub))
      | _ => pure acc    -- nt:link got created when the Fiber node was processed
    | _ =>
      match b with
      | .fiber _ _ _ _ => pure acc
      | _ =>
        let power : Option ℚ :=
          match a with
          | .roadm _ _ params _ =>
            some ((alookup params.per_degree_pch_out_db b.uid).getD
              params.target_pch_out_db)
          | _ => none
        pure (acc ++ [jsonYangLink ("patch\x7b" ++ a.uid ++ ", " ++ b.uid ++ "\x7d")
          a.uid b.uid none (some power)])

/-- The complete edge loop: fold `storeEdgeStep` over the edge list. -/
def storeEdgePass (elems : List Element) (edges : List ((String × String) × ℚ)) :
    Except Err (List LinkEntry) :=
  edges.foldlM (storeEdgeStep elems) ([] : List LinkEntry)

/-- `_store_topology(raw, equipment, network)`: the node loop then the
edge loop; returns the emitted node and link lists together with the
network as left behind (Transceiver mutations included), which the
caller keeps. -/
def storeTopology (eq : Equipment) (net : Network) :
    Except Err (List NodeEntry × List LinkEntry × Network) := do
  let (nodes, fiberLinks, elems) ← storeNodePass eq net
  let patchLinks ← storeEdgePass elems net.edges
  return (nodes, fiberLinks ++ patchLinks, { net with nodes := elems })

/-! ## Concrete fixtures -/

/-- An amplifier entry carrying both a `polynomial-NF` and an
`OpenROADM-ILA` sub-structure. -/
def edfaYangBothModels : EdfaYang :=
  { type := "edfa-both", gainMin := 10, composite := none,
    polynomialNF := some (1, 2, 3, 4), openroadmILA := some (5, 6, 7, 8),
    openroadmPreamp := none, openroadmBooster := none, minMaxNF := none,
    ramanApprox := none, gainFlatmax := some 26, frequencyMin := some (1913 / 10),
    frequencyMax := some (1961 / 10), maxPowerOut := some 21, hasOutputVoa := none,
    gainRipple := none, dynamicGainTilt := none, nfRipple := none }

/-- An amplifier entry carrying none of the noise-figure sub-structures. -/
def edfaYangNoModel : EdfaYang :=
  { edfaYangBothModels with
    type := "edfa-none", polynomialNF := none, openroadmILA := none }

/-- A polynomial-fit amplifier record with a non-trivial gain ripple. -/
def advancedAmp : Amp :=
  { type_variety := "std-edfa", type_def := some "advanced_model",
    f_min := some (1913 / 10 * THZ), f_max := some (1961 / 10 * THZ),
    gain_min := 15, gain_flatmax := some 26, p_max := some 21,
    nf_fit_coeff := some (1 / 100, 0, 0, 6), nf_ripple := some [0], dgt := some [0],
    gain_ripple := some (List.replicate 96 1), out_voa_auto := none,
    allowed_for_design := true, raman := false, nf_model := none,
    dual_stage_model := none }

/-- A non-composite amplifier object (its `__dict__`). -/
def simpleAmpObj : AmpObj :=
  [("type_variety", .str "P"), ("dual_stage_model", .pynone), ("gain_min", .num 5)]

/-- A composite amplifier object referencing `P` twice. -/
def goodCompositeObj : AmpObj :=
  [("type_variety", .str "C1"), ("dual_stage_model", .dual "P" "P")]

/-- A composite amplifier object whose preamp name is absent. -/
def badCompositeObj : AmpObj :=
  [("type_variety", .str "C2"), ("dual_stage_model", .dual "missing" "P")]

/-- A table with one healthy composite before a dangling one. -/
def mixedAmpTable : AmpTable :=
  [("P", simpleAmpObj), ("C1", goodCompositeObj), ("C2", badCompositeObj)]

/-- The same table without the dangling composite. -/
def healthyAmpTable : AmpTable :=
  [("P", simpleAmpObj), ("C1", goodCompositeObj)]

/-- The resolved form of `healthyAmpTable`: `C1` carries the complete
`preamp_`/`booster_` copies of `P`. -/
def resolvedHealthyTable : AmpTable :=
  [("P", simpleAmpObj),
   ("C1", [("type_variety", .str "C1"), ("dual_stage_model", .dual "P" "P"),
           ("preamp_type_variety", .str "P"), ("preamp_dual_stage_model", .pynone),
           ("preamp_gain_min", .num 5),
           ("booster_type_variety", .str "P"),
           ("booster_dual_stage_model", .pynone), ("booster_gain_min", .num 5)])]

/-- A ROADM equipment record. -/
def roadmEqFx : RoadmEq :=
  { target_pch_out_db := -20, add_drop_osnr := 38, pmd := 0,
    preamp_variety_list := [], booster_variety_list := [] }

/-- A fiber equipment record. -/
def fiberEqFx : FiberEq :=
  { dispersion := 167 / 10, dispersion_slope := 0, gamma := 127 / 100,
    pmd_coef := 1 / 10 }

/-- An equipment library with one ROADM type, one fiber type, one EDFA
type and one transceiver type. -/
def equipmentFx : Equipment :=
  { edfa := [("EDFA1", advancedAmp)], roadm := [("R", roadmEqFx)],
    fiberTypes := [("SSMF", fiberEqFx)], transceiverTypes := ["T100"] }

/-- A ROADM topology node of model `R`. -/
def roadmNodeFx (uid : String) : TopoNode :=
  { nodeId := uid, geoLocation := none, amplifier := none, roadm := some "R",
    transceiver := none, attenuator := none }

/-- A topology node carrying both an amplifier and a roadm sub-structure. -/
def nodeBothKinds : TopoNode :=
  { nodeId := "N-both", geoLocation := none,
    amplifier := some
      { model := "EDFA1", gainTarget := none, tiltTarget := none,
        outVoaTarget := none, deltaP := none },
    roadm := some "R", transceiver := none, attenuator := none }

/-- A topology node carrying none of the four sub-structures. -/
def nodeNoKind : TopoNode :=
  { nodeId := "N-none", geoLocation := none, amplifier := none, roadm := none,
    transceiver := none, attenuator := none }

/-- A fiber-type link of the given length between two node ids. -/
def fiberLinkFx (id s d : String) (len : ℚ) : LinkYang :=
  { linkId := id, sourceNode := s, destNode := d,
    fiber := some
      { ftype := "SSMF", length := len, lossPerKm := 1 / 5,
        attenuationIn := 0, connAttIn := 0, connAttOut := 0 },
    patch := none }

/-- Fiber element parameters for an 80 km span. -/
def fiberParamsFx : FiberParams :=
  { length := 80000, loss_coef := 1 / 5, att_in := 0, con_in := 0, con_out := 0,
    dispersion := 167 / 10, gamma := 127 / 100, pmd_coef := 1 / 10 }

/-- ROADM element parameters matching `roadmEqFx`. -/
def roadmParamsFx : RoadmParams :=
  { target_pch_out_db := -20, add_drop_osnr := 38, pmd := 0,
    preamp_variety_list := [], booster_variety_list := [],
    per_degree_pch_out_db := [] }

/-- A network whose fiber `F` has two predecessors and one successor. -/
def netTwoPredecessors : Network :=
  { nodes := [.roadm "A" (some "R") roadmParamsFx none,
              .roadm "B" (some "R") roadmParamsFx none,
              .roadm "C" (some "R") roadmParamsFx none,
              .fiber "F" "SSMF" fiberParamsFx none],
    edges := [(("A", "F"), 80), (("B", "F"), 80), (("F", "C"), 1 / 100)] }

/-- A network with an edge directly joining two fibers. -/
def netFiberFiber : Network :=
  { nodes := [.roadm "A" (some "R") roadmParamsFx none,
              .fiber "F1" "SSMF" fiberParamsFx none,
              .fiber "F2" "SSMF" fiberParamsFx none,
              .roadm "B" (some "R") roadmParamsFx none],
    edges := [(("A", "F1"), 80), (("F1", "F2"), 1 / 100), (("F2", "B"), 1 / 100)] }

/-- A network holding a single Transceiver without a `type_variety`. -/
def netUntypedTransceiver : Network :=
  { nodes := [.transceiver "T" none none], edges := [] }

/-- A well-formed chain `A → F → B` with a single fiber. -/
def netFiberChain : Network :=
  { nodes := [.roadm "A" (some "R") roadmParamsFx none,
              .roadm "B" (some "R") roadmParamsFx none,
              .fiber "F" "SSMF" fiberParamsFx none],
    edges := [(("A", "F"), 80), (("F", "B"), 1 / 100)] }

/-- The node entries emitted when storing `netFiberChain`. -/
def netFiberChainStoredNodes : List NodeEntry :=
  [.roadm "A" "R" (-20), .roadm "B" "R" (-20)]

/-- The link entries emitted when storing `netFiberChain`. -/
def netFiberChainStoredLinks : List LinkEntry :=
  [jsonYangLink "F" "A" "B" (some (fiberPayload "SSMF" fiberParamsFx)) none]

/-! ## Interpolation lemmas -/

/-- Clamping below the first input frequency returns the first value. -/
lemma interpPairs_le_head (x : ℤ) (k0 : ℤ) (v0 : ℚ) (rest : List (ℤ × ℚ))
    (h : x ≤ k0) : interpPairs x ((k0, v0) :: rest) = v0 := by
  cases rest with
  | nil => rfl
  | cons hd tl => simp [interpPairs, h]

/-- In a strictly frequency-increasing pair list the head frequency is
at most the last one. -/
lemma chainLt_head_le_last :
    ∀ (hd : ℤ × ℚ) (tl : List (ℤ × ℚ)),
      List.Chain' (fun a b : ℤ × ℚ => a.1 < b.1) (hd :: tl) →
      ∀ kn vn, (hd :: tl).getLast? = some (kn, vn) → hd.1 ≤ kn := by
  intro hd tl
  induction tl generalizing hd with
  | nil =>
    intro _ kn vn hlast
    simp at hlast
    subst hlast
    exact le_refl _
  | cons hd2 tl2 ih =>
    intro hchain kn vn hlast
    have hlt : hd.1 < hd2.1 := (List.chain'_cons.mp hchain).1
    have hlast2 : (hd2 :: tl2).getLast? = some (kn, vn) := by
      rw [List.getLast?_cons_cons] at hlast; exact hlast
    have := ih hd2 (List.chain'_cons.mp hchain).2 kn vn hlast2
    omega

/-- Clamping at or above the last input frequency returns the last value,
for strictly increasing input frequencies. -/
lemma interpPairs_ge_last (x : ℤ) :
    ∀ (ps : List (ℤ × ℚ)), List.Chain' (fun a b : ℤ × ℚ => a.1 < b.1) ps →
      ∀ kn vn, ps.getLast? = some (kn, vn) → kn ≤ x → interpPairs x ps = vn := by
  intro ps
  induction ps with
  | nil => intro _ kn vn h; simp at h
  | cons hd tl ih =>
    intro hchain kn vn hlast hle
    cases tl with
    | nil =>
      simp at hlast
      subst hlast
      rfl
    | cons hd2 tl2 =>
      have hlt : hd.1 < hd2.1 := (List.chain'_cons.mp hchain).1
      have hchain2 : List.Chain' (fun a b : ℤ × ℚ => a.1 < b.1) (hd2 :: tl2) :=
        (List.chain'_cons.mp hchain).2
      have hlast2 : (hd2 :: tl2).getLast? = some (kn, vn) := by
        rw [List.getLast?_cons_cons] at hlast; exact hlast
      have hd2_le : hd2.1 ≤ kn := chainLt_head_le_last hd2 tl2 hchain2 kn vn hlast2
      have hx0 : ¬(x ≤ hd.1) := by omega
      rcases hd with ⟨x0, f0⟩
      rcases hd2 with ⟨x1, f1⟩
      simp only at hlt hd2_le
      by_cases hx1 : x ≤ x1
      · -- only possible when x = x1 is the last frequency itself
        have hkn : kn = x1 := le_antisymm (by omega) hd2_le
        cases tl2 with
        | nil =>
          simp at hlast2
          have hxeq : x = x1 := by omega
          rw [interpPairs]
          simp only [hx0, if_false, hx1, if_true]
          have hne : (x1 : ℚ) - (x0 : ℚ) ≠ 0 := by
            have : (x0 : ℚ) < (x1 : ℚ) := by exact_mod_cast hlt
            linarith
          rw [hxeq, hlast2.2]
          field_simp
        | cons hd3 tl3 =>
          exfalso
          have hlt2 : x1 < hd3.1 := (List.chain'_cons.mp hchain2).1
          have hlast3 : (hd3 :: tl3).getLast? = some (kn, vn) := by
            rw [List.getLast?_cons_cons] at hlast2; exact hlast2
          have hd3_le : hd3.1 ≤ kn :=
            chainLt_head_le_last hd3 tl3 (List.chain'_cons.mp hchain2).2 kn vn hlast3
          omega
      · rw [interpPairs]
        simp only [hx0, if_false, hx1, if_false]
        exact ih hchain2 kn vn hlast2 hle

/-- A single input pair yields its value at every sample point. -/
lemma interpPairs_single (x f0 : ℤ) (v0 : ℚ) : interpPairs x [(f0, v0)] = v0 := rfl

/-- C5: `_extract_per_spectrum` returns the single-element zero sequence
when the key is absent; when present it sorts the (frequency, value)
pairs ascending and linearly interpolates them onto the 96 sample
frequencies `191.3 THz + k·50 GHz`, clamping samples outside the input
range to the nearest endpoint value; consequently a single input point
`(f₀, v₀)` yields `v₀` at every one of the 96 outputs. -/
theorem spectrum_interpolation_spec :
    extractPerSpectrum none = [0]
    ∧ (∀ l : List (ℤ × ℚ),
        (sortByFreq l).Pairwise (fun a b => a.1 ≤ b.1) ∧ (sortByFreq l).Perm l)
    ∧ (∀ l : List (ℤ × ℚ), (extractPerSpectrum (some l)).length = 96)
    ∧ (∀ (l : List (ℤ × ℚ)) (ch : ℕ), ch < 96 →
        (extractPerSpectrum (some l))[ch]?
          = some (interpPairs (gridFreq ch) (sortByFreq l)))
    ∧ (∀ (l : List (ℤ × ℚ)) (k0 : ℤ) (v0 : ℚ) (rest : List (ℤ × ℚ)) (ch : ℕ),
        ch < 96 → sortByFreq l = (k0, v0) :: rest → gridFreq ch ≤ k0 →
        (extractPerSpectrum (some l))[ch]? = some v0)
    ∧ (∀ (l : List (ℤ × ℚ)) (kn : ℤ) (vn : ℚ) (ch : ℕ),
        ch < 96 → List.Chain' (fun a b : ℤ × ℚ => a.1 < b.1) (sortByFreq l) →
        (sortByFreq l).getLast? = some (kn, vn) → kn ≤ gridFreq ch →
        (extractPerSpectrum (some l))[ch]? = some vn)
    ∧ (∀ (f0 : ℤ) (v0 : ℚ),
        extractPerSpectrum (some [(f0, v0)]) = List.replicate 96 v0) := by
  have hsorted : ∀ l : List (ℤ × ℚ),
      (sortByFreq l).Pairwise (fun a b => a.1 ≤ b.1) ∧ (sortByFreq l).Perm l := by
    intro l
    haveI : IsTotal (ℤ × ℚ) (fun a b => a.1 ≤ b.1) := ⟨fun a b => le_total a.1 b.1⟩
    haveI : IsTrans (ℤ × ℚ) (fun a b => a.1 ≤ b.1) :=
      ⟨fun _ _ _ hab hbc => le_trans hab hbc⟩
    exact ⟨List.sorted_insertionSort _ l, List.perm_insertionSort _ l⟩
  have hget : ∀ (l : List (ℤ × ℚ)) (ch : ℕ), ch < 96 →
      (extractPerSpectrum (some l))[ch]?
        = some (interpPairs (gridFreq ch) (sortByFreq l)) := by
    intro l ch hch
    simp [extractPerSpectrum, List.getElem?_map, List.getElem?_range, hch]
  refine ⟨rfl, hsorted, ?_, hget, ?_, ?_, ?_⟩
  · intro l
    simp [extractPerSpectrum]
  · intro l k0 v0 rest ch hch hsort hle
    rw [hget l ch hch, hsort, interpPairs_le_head _ _ _ _ hle]
  · intro l kn vn ch hch hchain hlast hle
    rw [hget l ch hch, interpPairs_ge_last _ _ hchain kn vn hlast hle]
  · intro f0 v0
    have hs : sortByFreq [(f0, v0)] = [(f0, v0)] := rfl
    have h96 : ∀ ch : ℕ, interpPairs (gridFreq ch) (sortByFreq [(f0, v0)]) = v0 := by
      intro ch; rw [hs]; rfl
    simp only [extractPerSpectrum, h96]
    simp [List.map_const', List.length_range, List.eq_replicate_iff]

/-- Witness for C5: a two-point spectrum sampled below its lowest input
frequency clamps to the first value. -/
theorem spectrum_interpolation_spec_witness :
    (extractPerSpectrum
      (some [((200000000000000 : ℤ), (5 : ℚ)), ((199000000000000 : ℤ), (4 : ℚ))]))[0]?
      = some 4 :=
  spectrum_interpolation_spec.2.2.2.2.1
    [((200000000000000 : ℤ), (5 : ℚ)), ((199000000000000 : ℤ), (4 : ℚ))]
    199000000000000 4 [((200000000000000 : ℤ), (5 : ℚ))] 0
    (by decide) (by decide) (by decide)

/-- C4 counterexample: an amplifier entry carrying two of the mutually
exclusive noise-figure sub-structures (`polynomial-NF` and
`OpenROADM-ILA`) is silently accepted by `_transform_edfa` — it is
classified by the first `if/elif` match and the second sub-structure is
ignored — rather than failing with the unrecognized-model error. -/
theorem transform_edfa_two_models_accepted :
    edfaYangBothModels.polynomialNF.isSome = true
    ∧ edfaYangBothModels.openroadmILA.isSome = true
    ∧ (transformEdfa edfaYangBothModels).isOk = true
    ∧ transformEdfa edfaYangBothModels
        = transformEdfa { edfaYangBothModels with openroadmILA := none } :=
  ⟨rfl, rfl, rfl, rfl⟩

/-- C4 (amended): `_transform_edfa` classifies the noise-figure model by
the first matching sub-structure in the fixed order (composite,
polynomial-NF, OpenROADM-ILA, OpenROADM-preamp, OpenROADM-booster,
min-max-NF, raman-approximation).  An entry with none of them present
fails with the unrecognized-model error; an entry with several present
silently succeeds with the first match (composite wins over everything,
polynomial-NF over the remaining ones). -/
theorem transform_edfa_first_match (e : EdfaYang) :
    (e.composite = none → e.polynomialNF = none → e.openroadmILA = none →
      e.openroadmPreamp = none → e.openroadmBooster = none → e.minMaxNF = none →
      e.ramanApprox = none →
      transformEdfa e = .error (.notImplementedError ("Internal error: EDFA model "
        ++ e.type ++
        ": unrecognized amplifier NF model for EDFA. Error in the YANG validation code.")))
    ∧ (∀ p b, e.composite = some (p, b) →
        ∃ a, transformEdfa e = .ok a ∧ a.type_def = some "dual_stage"
          ∧ a.dual_stage_model = some (p, b))
    ∧ (∀ co gfm fmin fmax pmax, e.composite = none → e.polynomialNF = some co →
        e.gainFlatmax = some gfm → e.frequencyMin = some fmin →
        e.frequencyMax = some fmax → e.maxPowerOut = some pmax →
        ∃ a, transformEdfa e = .ok a ∧ a.type_def = some "advanced_model"
          ∧ a.nf_fit_coeff = some co ∧ a.nf_model = none) := by
  refine ⟨?_, ?_, ?_⟩
  · intro h1 h2 h3 h4 h5 h6 h7
    simp [transformEdfa, h1, h2, h3, h4, h5, h6, h7, throw, throwThe,
      MonadExceptOf.throw, Bind.bind, Except.bind, Functor.map, Except.map]
  · intro p b hc
    have hval : transformEdfa e = Except.ok
        { type_variety := e.type, type_def := some "dual_stage", f_min := none,
          f_max := none, gain_min := e.gainMin, gain_flatmax := none, p_max := none,
          nf_fit_coeff := none, nf_ripple := none, dgt := none, gain_ripple := none,
          out_voa_auto := none, allowed_for_design := true, raman := false,
          nf_model := none, dual_stage_model := some (p, b) } := by
      simp [transformEdfa, hc, pure, Except.pure]
    exact ⟨_, hval, rfl, rfl⟩
  · intro co gfm fmin fmax pmax h1 h2 h3 h4 h5 h6
    rcases co with ⟨a, b, c, d⟩
    have hval : transformEdfa e = Except.ok
        { type_variety := e.type, type_def := some "advanced_model",
          f_min := some (fmin * THZ), f_max := some (fmax * THZ),
          gain_min := e.gainMin, gain_flatmax := some gfm, p_max := some pmax,
          nf_fit_coeff := some (a, b, c, d),
          nf_ripple := some (extractPerSpectrum e.nfRipple),
          dgt := some (extractPerSpectrum e.dynamicGainTilt),
          gain_ripple := some (extractPerSpectrum e.gainRipple), out_voa_auto := none,
          allowed_for_design := true, raman := false, nf_model := none,
          dual_stage_model := none } := by
      simp [transformEdfa, reqQ, h1, h2, h3, h4, h5, h6, pure, Except.pure,
        Bind.bind, Except.bind]
    exact ⟨_, hval, rfl, rfl, rfl⟩

/-- Witness for C4 (amended): the no-model fixture fails with the
unrecognized-model error. -/
theorem transform_edfa_first_match_witness :
    transformEdfa edfaYangNoModel = .error (.notImplementedError
      ("Internal error: EDFA model " ++ edfaYangNoModel.type ++
        ": unrecognized amplifier NF model for EDFA. Error in the YANG validation code.")) :=
  (transform_edfa_first_match edfaYangNoModel).1 rfl rfl rfl rfl rfl rfl rfl

/-- C7 counterexample: a topology node carrying both the amplifier and
the roadm sub-structures is accepted by the node classification of
`_load_network` and instantiated as an Edfa — the `if/elif` chain takes
the first match — rather than raising a structural error. -/
theorem load_node_two_kinds_accepted :
    nodeBothKinds.amplifier.isSome = true
    ∧ nodeBothKinds.roadm.isSome = true
    ∧ loadNode equipmentFx nodeBothKinds
        = .ok (.edfa "N-both" "EDFA1" advancedAmp none
            { gain_target := none, tilt_target := some 0, out_voa := none,
              delta_p := none }) :=
  ⟨rfl, rfl, rfl⟩

/-- C7 (amended): the node classification of `_load_network` takes the
first matching sub-structure in the fixed order (amplifier, roadm,
transceiver, attenuator): a node with none of them raises the structural
`ValueError` naming the node, a node with an amplifier sub-structure is
instantiated as an Edfa regardless of the other sub-structures (with a
`KeyError` when its model is absent from the equipment library). -/
theorem load_node_first_match (eq : Equipment) (node : TopoNode) :
    (node.amplifier = none → node.roadm = none → node.transceiver = none →
      node.attenuator = none →
      loadNode eq node = .error (.valueError
        ("Internal error: unrecognized network node " ++ node.nodeId ++
          " which was expected to belong to the photonic-topology")))
    ∧ (∀ amp params, node.amplifier = some amp →
        alookup eq.edfa amp.model = some params →
        loadNode eq node = .ok (.edfa node.nodeId amp.model params
          (nodeLocation node)
          { gain_target := amp.gainTarget, tilt_target := some (amp.tiltTarget.getD 0),
            out_voa := amp.outVoaTarget, delta_p := amp.deltaP }))
    ∧ (∀ amp, node.amplifier = some amp → alookup eq.edfa amp.model = none →
        loadNode eq node = .error (.keyError amp.model)) := by
  refine ⟨?_, ?_, ?_⟩
  · intro h1 h2 h3 h4
    simp [loadNode, h1, h2, h3, h4, throw, throwThe, MonadExceptOf.throw,
      Bind.bind, Except.bind]
  · intro amp params h1 h2
    simp [loadNode, reqQ, h1, h2, pure, Except.pure, Bind.bind, Except.bind]
  · intro amp h1 h2
    simp [loadNode, reqQ, h1, h2]

/-- Witness for C7 (amended): the kindless fixture node raises the
structural error naming it. -/
theorem load_node_first_match_witness :
    loadNode equipmentFx nodeNoKind = .error (.valueError
      ("Internal error: unrecognized network node " ++ nodeNoKind.nodeId ++
        " which was expected to belong to the photonic-topology")) :=
  (load_node_first_match equipmentFx nodeNoKind).1 rfl rfl rfl rfl

/-! ## Store-pass lemmas -/

/-- A successful `storeNodeStep` only appends to the three accumulators. -/
lemma storeNodeStep_mono (eq : Equipment) (net : Network)
    (acc : List NodeEntry × List LinkEntry × List Element) (n : Element)
    (acc' : List NodeEntry × List LinkEntry × List Element)
    (h : storeNodeStep eq net acc n = .ok acc') :
    ∃ d1 d2 d3, acc'.1 = acc.1 ++ d1 ∧ acc'.2.1 = acc.2.1 ++ d2
      ∧ acc'.2.2 = acc.2.2 ++ d3 := by
  cases n with
  | transceiver uid tv md =>
    cases tv with
    | some t =>
      simp [storeNodeStep, pure, Except.pure, Bind.bind, Except.bind] at h
      subst h
      exact ⟨_, [], _, rfl, by simp, rfl⟩
    | none =>
      cases htypes : eq.transceiverTypes with
      | nil =>
        simp [storeNodeStep, htypes, pure, Except.pure, Bind.bind, Except.bind,
          throw, throwThe, MonadExceptOf.throw] at h
      | cons k ks =>
        simp [storeNodeStep, htypes, pure, Except.pure, Bind.bind, Except.bind] at h
        subst h
        exact ⟨_, [], _, rfl, by simp, rfl⟩
  | edfa uid tv params md op =>
    simp [storeNodeStep, pure, Except.pure] at h
    subst h
    exact ⟨_, [], _, rfl, by simp, rfl⟩
  | roadm uid tv params md =>
    cases tv with
    | none =>
      simp [storeNodeStep, throw, throwThe, MonadExceptOf.throw] at h
    | some t =>
      simp [storeNodeStep, pure, Except.pure] at h
      subst h
      exact ⟨_, [], _, rfl, by simp, rfl⟩
  | fused uid loss =>
    simp [storeNodeStep, pure, Except.pure] at h
    subst h
    exact ⟨_, [], _, rfl, by simp, rfl⟩
  | fiber uid tv params md =>
    cases hp : predecessors net.edges uid with
    | nil =>
      simp [storeNodeStep, hp, throw, throwThe, MonadExceptOf.throw] at h
    | cons p ps =>
      cases hs : successors net.edges uid with
      | nil =>
        simp [storeNodeStep, hp, hs, throw, throwThe, MonadExceptOf.throw] at h
      | cons s ss =>
        simp [storeNodeStep, hp, hs, pure, Except.pure] at h
        subst h
        exact ⟨[], _, _, by simp, rfl, rfl⟩

/-- Along a successful node loop the emitted link entries and the
processed elements only grow. -/
lemma storeNodePass_go_mono (eq : Equipment) (net : Network) :
    ∀ (nodes : List Element) acc res,
      List.foldlM (storeNodeStep eq net) acc nodes = .ok res →
      (∀ x, x ∈ acc.2.1 → x ∈ res.2.1) ∧ (∀ x, x ∈ acc.2.2 → x ∈ res.2.2) := by
  intro nodes
  induction nodes with
  | nil =>
    intro acc res h
    simp [List.foldlM, pure, Except.pure] at h
    subst h
    exact ⟨fun _ hx => hx, fun _ hx => hx⟩
  | cons n rest ih =>
    intro acc res h
    rw [List.foldlM_cons] at h
    cases hstep : storeNodeStep eq net acc n with
    | error e => rw [hstep] at h; exact absurd h (by simp [Bind.bind, Except.bind])
    | ok acc' =>
      rw [hstep] at h
      simp only [Bind.bind, Except.bind] at h
      obtain ⟨d1, d2, d3, _, h2, h3⟩ := storeNodeStep_mono eq net acc n acc' hstep
      obtain ⟨ih1, ih2⟩ := ih acc' res h
      constructor
      · intro x hx; exact ih1 x (by rw [h2]; exact List.mem_append_left _ hx)
      · intro x hx; exact ih2 x (by rw [h3]; exact List.mem_append_left _ hx)

/-- A successful node loop has emitted, for every Fiber element, one
link entry from the first predecessor to the first successor. -/
lemma storeNodePass_go_fiber (eq : Equipment) (net : Network)
    (uid tv : String) (params : FiberParams) (md : Option Location) :
    ∀ (nodes : List Element) acc res,
      List.foldlM (storeNodeStep eq net) acc nodes = .ok res →
      Element.fiber uid tv params md ∈ nodes →
      ∃ p ps s ss, predecessors net.edges uid = p :: ps
        ∧ successors net.edges uid = s :: ss
        ∧ jsonYangLink uid p s (some (fiberPayload tv params)) none ∈ res.2.1 := by
  intro nodes
  induction nodes with
  | nil => intro acc res _ hmem; simp at hmem
  | cons n rest ih =>
    intro acc res h hmem
    rw [List.foldlM_cons] at h
    cases hstep : storeNodeStep eq net acc n with
    | error e => rw [hstep] at h; exact absurd h (by simp [Bind.bind, Except.bind])
    | ok acc' =>
      rw [hstep] at h
      simp only [Bind.bind, Except.bind] at h
      rcases List.mem_cons.mp hmem with heq | hrest
      · subst heq
        cases hp : predecessors net.edges uid with
        | nil =>
          rw [storeNodeStep, hp] at hstep
          exact absurd hstep (by simp [throw, throwThe, MonadExceptOf.throw])
        | cons p ps =>
          cases hs : successors net.edges uid with
          | nil =>
            rw [storeNodeStep, hp, hs] at hstep
            exact absurd hstep (by simp [throw, throwThe, MonadExceptOf.throw])
          | cons s ss =>
            rw [storeNodeStep, hp, hs] at hstep
            simp only [pure, Except.pure, Except.ok.injEq] at hstep
            refine ⟨p, ps, s, ss, rfl, rfl, ?_⟩
            have hin : jsonYangLink uid p s (some (fiberPayload tv params)) none
                ∈ acc'.2.1 := by
              rw [← hstep]; simp
            exact (storeNodePass_go_mono eq net rest acc' res h).1 _ hin
      · exact ih acc' res h hrest

/-- A successful node loop records, for every Transceiver element
without a `type_variety`, the mutated element carrying the first
equipment transceiver type, and emits the matching node entry. -/
lemma storeNodePass_go_transceiver (eq : Equipment) (net : Network)
    (uid : String) (md : Option Location) (k : String) (ks : List String)
    (htypes : eq.transceiverTypes = k :: ks) :
    ∀ (nodes : List Element) acc res,
      List.foldlM (storeNodeStep eq net) acc nodes = .ok res →
      Element.transceiver uid none md ∈ nodes →
      Element.transceiver uid (some k) md ∈ res.2.2 := by
  intro nodes
  induction nodes with
  | nil => intro acc res _ hmem; simp at hmem
  | cons n rest ih =>
    intro acc res h hmem
    rw [List.foldlM_cons] at h
    cases hstep : storeNodeStep eq net acc n with
    | error e => rw [hstep] at h; exact absurd h (by simp [Bind.bind, Except.bind])
    | ok acc' =>
      rw [hstep] at h
      simp only [Bind.bind, Except.bind] at h
      rcases List.mem_cons.mp hmem with heq | hrest
      · subst heq
        rw [storeNodeStep, htypes] at hstep
        simp only [pure, Except.pure, Bind.bind, Except.bind, Except.ok.injEq] at hstep
        have hin : Element.transceiver uid (some k) md ∈ acc'.2.2 := by
          rw [← hstep]; simp
        exact (storeNodePass_go_mono eq net rest acc' res h).2 _ hin
      · exact ih acc' res h hrest

/-! ## Claim theorems for the topology passes -/

/-- C2 (code bug): in a topology with two fiber links of lengths 80 and
120, the loader gives BOTH ingress edges the weight 120 — the second
link pass reads the stale local variable `fiber` left over from the
first pass (the last fiber link parsed) instead of re-binding it per
link — although the first link's own length is 80. -/
theorem load_network_stale_fiber_length :
    (loadPhotonicNetwork equipmentFx
        [roadmNodeFx "X", roadmNodeFx "Y", roadmNodeFx "Z"]
        [fiberLinkFx "F1" "X" "Y" 80, fiberLinkFx "F2" "Y" "Z" 120]).map Network.edges
      = .ok [(("X", "F1"), 120), (("F1", "Y"), 1 / 100), (("Y", "F2"), 120),
             (("F2", "Z"), 1 / 100)]
    ∧ ((fiberLinkFx "F1" "X" "Y" 80).fiber.map FiberLinkYang.length = some 80)
    ∧ (staleFiberVar [fiberLinkFx "F1" "X" "Y" 80, fiberLinkFx "F2" "Y" "Z" 120]).map
        FiberLinkYang.length = some 120
    ∧ (80 : ℚ) ≠ 120 := by
  refine ⟨rfl, rfl, rfl, ?_⟩
  decide

/-- C8 counterexample: the fiber `F` of `netTwoPredecessors` has two
predecessors, yet `_store_topology` succeeds — `next(predecessors)`
silently takes the first one and the emitted link starts at `A` — where
the claim demands a structural error. -/
theorem store_fiber_two_predecessors_accepted :
    predecessors netTwoPredecessors.edges "F" = ["A", "B"]
    ∧ (storeTopology equipmentFx netTwoPredecessors).isOk = true
    ∧ (storeTopology equipmentFx netTwoPredecessors).map
        (fun r => r.2.1.map LinkEntry.sourceNode) = .ok ["A"] :=
  ⟨rfl, rfl, rfl⟩

/-- C8 (amended): for every Fiber node of a successfully stored network,
`_store_topology` emits exactly one logical link entry from the FIRST
predecessor to the FIRST successor delivered by graph adjacency; a fiber
with no predecessor or no successor can never be stored (the bare
`next()` raises `StopIteration`, not a structural error), and additional
predecessors or successors are silently ignored. -/
theorem store_fiber_first_adjacency (eq : Equipment) (net : Network)
    (ns : List NodeEntry) (ls : List LinkEntry) (net' : Network)
    (h : storeTopology eq net = .ok (ns, ls, net'))
    (uid tv : String) (params : FiberParams) (md : Option Location)
    (hmem : Element.fiber uid tv params md ∈ net.nodes) :
    ∃ p ps s ss, predecessors net.edges uid = p :: ps
      ∧ successors net.edges uid = s :: ss
      ∧ jsonYangLink uid p s (some (fiberPayload tv params)) none ∈ ls := by
  rw [storeTopology] at h
  cases hnode : storeNodePass eq net with
  | error e =>
    rw [hnode] at h; exact absurd h (by simp [Bind.bind, Except.bind])
  | ok r =>
    obtain ⟨n1, l1, es⟩ := r
    rw [hnode] at h
    simp only [Bind.bind, Except.bind] at h
    cases hedge : storeEdgePass es net.edges with
    | error e =>
      rw [hedge] at h; exact absurd h (by simp)
    | ok l2 =>
      rw [hedge] at h
      simp only [pure, Except.pure, Except.ok.injEq, Prod.mk.injEq] at h
      obtain ⟨p, ps, s, ss, hp, hs, hin⟩ :=
        storeNodePass_go_fiber eq net uid tv params md net.nodes _ _ hnode hmem
      refine ⟨p, ps, s, ss, hp, hs, ?_⟩
      rw [← h.2.1]
      exact List.mem_append_left _ hin

/-- Witness for C8 (amended): storing a well-formed one-fiber network
emits the link entry between its unique neighbors. -/
theorem store_fiber_first_adjacency_witness :
    jsonYangLink "F" "A" "B" (some (fiberPayload "SSMF" fiberParamsFx)) none
      ∈ netFiberChainStoredLinks := by
  obtain ⟨p, ps, s, ss, hp, hs, hin⟩ :=
    store_fiber_first_adjacency equipmentFx netFiberChain
      netFiberChainStoredNodes netFiberChainStoredLinks netFiberChain
      rfl "F" "SSMF" fiberParamsFx none (by simp [netFiberChain])
  have hp2 : ["A"] = p :: ps := hp
  have hs2 : ["B"] = s :: ss := hs
  injection hp2 with hp3 _
  injection hs2 with hs3 _
  rw [← hp3, ← hs3] at hin
  exact hin

/-- C10: storing a network whose Transceiver lacks a `type_variety`
mutates that input graph node in place: after a successful
`_store_topology` the node carries the first key of the Transceiver
equipment table, observably on the network object the caller keeps. -/
theorem store_mutates_untyped_transceiver (eq : Equipment) (net : Network)
    (ns : List NodeEntry) (ls : List LinkEntry) (net' : Network)
    (uid : String) (md : Option Location) (k : String) (ks : List String)
    (htypes : eq.transceiverTypes = k :: ks)
    (h : storeTopology eq net = .ok (ns, ls, net'))
    (hmem : Element.transceiver uid none md ∈ net.nodes) :
    Element.transceiver uid (some k) md ∈ net'.nodes := by
  rw [storeTopology] at h
  cases hnode : storeNodePass eq net with
  | error e =>
    rw [hnode] at h; exact absurd h (by simp [Bind.bind, Except.bind])
  | ok r =>
    obtain ⟨n1, l1, es⟩ := r
    rw [hnode] at h
    simp only [Bind.bind, Except.bind] at h
    cases hedge : storeEdgePass es net.edges with
    | error e =>
      rw [hedge] at h; exact absurd h (by simp)
    | ok l2 =>
      rw [hedge] at h
      simp only [pure, Except.pure, Except.ok.injEq, Prod.mk.injEq] at h
      have hin := storeNodePass_go_transceiver eq net uid md k ks htypes
        net.nodes _ _ hnode hmem
      have hnodes : net'.nodes = es := by rw [← h.2.2]
      rw [hnodes]
      exact hin

/-- Witness for C10: the untyped Transceiver of the fixture network is
rewritten to the first equipment transceiver type `T100`. -/
theorem store_mutates_untyped_transceiver_witness :
    Element.transceiver "T" (some "T100") none ∈
      (Network.mk [Element.transceiver "T" (some "T100") none] []).nodes :=
  store_mutates_untyped_transceiver equipmentFx netUntypedTransceiver
    [NodeEntry.transceiver "T" "T100"] [] (Network.mk [Element.transceiver "T" (some "T100") none] [])
    "T" none "T100" [] rfl rfl (by simp [netUntypedTransceiver])

/-! ## Edge-pass lemmas -/

/-- `findNode` returns an element carrying the requested identifier. -/
lemma findNode_uid : ∀ (ns : List Element) (uid : String) (el : Element),
    findNode ns uid = some el → el.uid = uid := by
  intro ns
  induction ns with
  | nil => intro uid el h; simp [findNode] at h
  | cons n rest ih =>
    intro uid el h
    rw [findNode] at h
    by_cases hn : n.uid = uid
    · rw [if_pos hn] at h
      cases h
      exact hn
    · rw [if_neg hn] at h
      exact ih uid el h

/-- A fiber-to-fiber edge makes `storeEdgeStep` raise the topology error
naming both identifiers. -/
lemma storeEdgeStep_ff (elems : List Element) (acc : List LinkEntry)
    (uv : String × String) (w : ℚ) (a b : Element)
    (hfa : findNode elems uv.1 = some a) (hfb : findNode elems uv.2 = some b)
    (hia : isFiberElem a = true) (hib : isFiberElem b = true) :
    storeEdgeStep elems acc (uv, w) = .error (.networkTopologyError
      ("Fiber connected to a Fiber: " ++ a.uid ++ ", " ++ b.uid)) := by
  cases a <;> simp [isFiberElem] at hia
  cases b <;> simp [isFiberElem] at hib
  simp [storeEdgeStep, reqQ, hfa, hfb, Element.uid, Bind.bind, Except.bind,
    throw, throwThe, MonadExceptOf.throw]

/-- An edge with two resolvable non-Fiber endpoints makes
`storeEdgeStep` append exactly one patch entry. -/
lemma storeEdgeStep_patch (elems : List Element) (acc : List LinkEntry)
    (uv : String × String) (w : ℚ) (a b : Element)
    (hfa : findNode elems uv.1 = some a) (hfb : findNode elems uv.2 = some b)
    (hia : isFiberElem a = false) (hib : isFiberElem b = false) :
    ∃ pw, storeEdgeStep elems acc (uv, w) = .ok (acc ++
      [jsonYangLink ("patch\x7b" ++ a.uid ++ ", " ++ b.uid ++ "\x7d")
        a.uid b.uid none (some pw)]) := by
  cases a <;> simp [isFiberElem] at hia <;> cases b <;> simp [isFiberElem] at hib <;>
    exact ⟨_, by
      simp only [storeEdgeStep, reqQ, hfa, hfb, Element.uid, Bind.bind,
        Except.bind, pure, Except.pure]
      rfl⟩

/-- A successful `storeEdgeStep` only appends to the accumulator. -/
lemma storeEdgeStep_mono (elems : List Element) (acc : List LinkEntry)
    (e : (String × String) × ℚ) (acc' : List LinkEntry)
    (h : storeEdgeStep elems acc e = .ok acc') :
    ∃ d, acc' = acc ++ d := by
  rw [storeEdgeStep] at h
  cases hfa : findNode elems e.1.1 with
  | none =>
    rw [hfa] at h
    simp [reqQ, Bind.bind, Except.bind] at h
  | some a =>
    rw [hfa] at h
    cases hfb : findNode elems e.1.2 with
    | none =>
      rw [hfb] at h
      simp [reqQ, Bind.bind, Except.bind] at h
    | some b =>
      rw [hfb] at h
      simp only [reqQ, Bind.bind, Except.bind] at h
      cases a <;> cases b <;>
        simp only [throw, throwThe, MonadExceptOf.throw, pure, Except.pure,
          Except.ok.injEq] at h <;>
        first
          | (subst h; exact ⟨_, rfl⟩)
          | (subst h; exact ⟨[], (List.append_nil acc).symm⟩)
          | exact absurd h (by simp)

/-- Along a successful edge loop the emitted entries only grow. -/
lemma storeEdgePass_go_mono (elems : List Element) :
    ∀ (edges : List ((String × String) × ℚ)) acc ls,
      List.foldlM (storeEdgeStep elems) acc edges = .ok ls →
      ∀ x, x ∈ acc → x ∈ ls := by
  intro edges
  induction edges with
  | nil =>
    intro acc ls h x hx
    simp [List.foldlM, pure, Except.pure] at h
    subst h
    exact hx
  | cons e rest ih =>
    intro acc ls h x hx
    rw [List.foldlM_cons] at h
    cases hstep : storeEdgeStep elems acc e with
    | error er => rw [hstep] at h; exact absurd h (by simp [Bind.bind, Except.bind])
    | ok acc' =>
      rw [hstep] at h
      simp only [Bind.bind, Except.bind] at h
      obtain ⟨d, hd⟩ := storeEdgeStep_mono elems acc e acc' hstep
      exact ih acc' ls h x (by rw [hd]; exact List.mem_append_left _ hx)

/-- A successful edge loop implies no edge joins two Fiber elements. -/
lemma storeEdgePass_go_no_ff (elems : List Element) :
    ∀ (edges : List ((String × String) × ℚ)) acc ls,
      List.foldlM (storeEdgeStep elems) acc edges = .ok ls →
      ∀ uv w a b, (uv, w) ∈ edges → findNode elems uv.1 = some a →
        findNode elems uv.2 = some b →
        ¬(isFiberElem a = true ∧ isFiberElem b = true) := by
  intro edges
  induction edges with
  | nil => intro acc ls _ uv w a b hmem; simp at hmem
  | cons e rest ih =>
    intro acc ls h uv w a b hmem hfa hfb ⟨hia, hib⟩
    rw [List.foldlM_cons] at h
    cases hstep : storeEdgeStep elems acc e with
    | error er => rw [hstep] at h; exact absurd h (by simp [Bind.bind, Except.bind])
    | ok acc' =>
      rw [hstep] at h
      simp only [Bind.bind, Except.bind] at h
      rcases List.mem_cons.mp hmem with heq | hrest
      · subst heq
        rw [storeEdgeStep_ff elems acc uv w a b hfa hfb hia hib] at hstep
        exact absurd hstep (by simp)
      · exact ih acc' ls h uv w a b hrest hfa hfb ⟨hia, hib⟩

/-- A successful edge loop has emitted one patch entry per edge with two
non-Fiber endpoints. -/
lemma storeEdgePass_go_patch (elems : List Element) :
    ∀ (edges : List ((String × String) × ℚ)) acc ls,
      List.foldlM (storeEdgeStep elems) acc edges = .ok ls →
      ∀ uv w a b, (uv, w) ∈ edges → findNode elems uv.1 = some a →
        findNode elems uv.2 = some b → isFiberElem a = false →
        isFiberElem b = false →
        ∃ pw, jsonYangLink ("patch\x7b" ++ uv.1 ++ ", " ++ uv.2 ++ "\x7d")
          uv.1 uv.2 none (some pw) ∈ ls := by
  intro edges
  induction edges with
  | nil => intro acc ls _ uv w a b hmem; simp at hmem
  | cons e rest ih =>
    intro acc ls h uv w a b hmem hfa hfb hia hib
    rw [List.foldlM_cons] at h
    cases hstep : storeEdgeStep elems acc e with
    | error er => rw [hstep] at h; exact absurd h (by simp [Bind.bind, Except.bind])
    | ok acc' =>
      rw [hstep] at h
      simp only [Bind.bind, Except.bind] at h
      rcases List.mem_cons.mp hmem with heq | hrest
      · subst heq
        obtain ⟨pw, hpw⟩ := storeEdgeStep_patch elems acc uv w a b hfa hfb hia hib
        rw [hpw] at hstep
        have hu1 : a.uid = uv.1 := findNode_uid elems uv.1 a hfa
        have hu2 : b.uid = uv.2 := findNode_uid elems uv.2 b hfb
        refine ⟨pw, storeEdgePass_go_mono elems rest acc' ls h _ ?_⟩
        have hacc' : acc' = acc ++ [jsonYangLink
            ("patch\x7b" ++ a.uid ++ ", " ++ b.uid ++ "\x7d") a.uid b.uid
            none (some pw)] := by
          cases hstep
          rfl
        rw [hacc', hu1, hu2] at *
        simp
      · exact ih acc' ls h uv w a b hrest hfa hfb hia hib

/-- An edge whose endpoints resolve and are not both Fibers never makes
the step fail. -/
lemma storeEdgeStep_ok (elems : List Element) (acc : List LinkEntry)
    (uv : String × String) (w : ℚ) (a b : Element)
    (hfa : findNode elems uv.1 = some a) (hfb : findNode elems uv.2 = some b)
    (hnot : ¬(isFiberElem a = true ∧ isFiberElem b = true)) :
    ∃ acc', storeEdgeStep elems acc (uv, w) = .ok acc' := by
  cases a <;> cases b <;>
    first
      | exact ⟨_, by
          simp only [storeEdgeStep, reqQ, hfa, hfb, Bind.bind, Except.bind,
            pure, Except.pure]
          rfl⟩
      | exact absurd ⟨rfl, rfl⟩ hnot

/-- When every edge endpoint resolves and some edge joins two Fibers,
the edge loop fails with a topology error naming such a pair. -/
lemma storeEdgePass_go_ff_error (elems : List Element) :
    ∀ (edges : List ((String × String) × ℚ)) acc,
      (∀ uv w, (uv, w) ∈ edges →
        (findNode elems uv.1).isSome = true ∧ (findNode elems uv.2).isSome = true) →
      (∃ uv w a b, (uv, w) ∈ edges ∧ findNode elems uv.1 = some a ∧
        findNode elems uv.2 = some b ∧ isFiberElem a = true ∧ isFiberElem b = true) →
      ∃ u1 u2 w a b, ((u1, u2), w) ∈ edges ∧ findNode elems u1 = some a ∧
        findNode elems u2 = some b ∧ isFiberElem a = true ∧ isFiberElem b = true ∧
        List.foldlM (storeEdgeStep elems) acc edges = .error (.networkTopologyError
          ("Fiber connected to a Fiber: " ++ u1 ++ ", " ++ u2)) := by
  intro edges
  induction edges with
  | nil =>
    intro acc _ hff
    obtain ⟨uv, w, a, b, hmem, _⟩ := hff
    simp at hmem
  | cons e rest ih =>
    intro acc hres hff
    obtain ⟨ha0, hb0⟩ := hres e.1 e.2 (by simp)
    obtain ⟨a, hfa⟩ := Option.isSome_iff_exists.mp ha0
    obtain ⟨b, hfb⟩ := Option.isSome_iff_exists.mp hb0
    by_cases hisff : isFiberElem a = true ∧ isFiberElem b = true
    · refine ⟨e.1.1, e.1.2, e.2, a, b, by simp, hfa, hfb, hisff.1, hisff.2, ?_⟩
      rw [List.foldlM_cons,
        storeEdgeStep_ff elems acc (e.1.1, e.1.2) e.2 a b hfa hfb hisff.1 hisff.2]
      have hu1 : a.uid = e.1.1 := findNode_uid elems e.1.1 a hfa
      have hu2 : b.uid = e.1.2 := findNode_uid elems e.1.2 b hfb
      rw [hu1, hu2]
      rfl
    · obtain ⟨acc', hstep⟩ :=
        storeEdgeStep_ok elems acc (e.1.1, e.1.2) e.2 a b hfa hfb hisff
      have hff' : ∃ uv w a b, (uv, w) ∈ rest ∧ findNode elems uv.1 = some a ∧
          findNode elems uv.2 = some b ∧ isFiberElem a = true ∧
          isFiberElem b = true := by
        obtain ⟨uv, w, a', b', hmem, hfa', hfb', hia', hib'⟩ := hff
        rcases List.mem_cons.mp hmem with heq | hrest
        · exfalso
          apply hisff
          have he1 : uv = e.1 := congrArg Prod.fst heq
          rw [he1] at hfa' hfb'
          rw [hfa] at hfa'
          rw [hfb] at hfb'
          cases hfa'
          cases hfb'
          exact ⟨hia', hib'⟩
        · exact ⟨uv, w, a', b', hrest, hfa', hfb', hia', hib'⟩
      obtain ⟨u1, u2, w, a', b', hmem, hfa', hfb', hia', hib', herr⟩ :=
        ih acc' (fun uv w hm => hres uv w (List.mem_cons_of_mem _ hm)) hff'
      refine ⟨u1, u2, w, a', b', List.mem_cons_of_mem _ hmem, hfa', hfb', hia',
        hib', ?_⟩
      rw [List.foldlM_cons]
      have hstep2 : storeEdgeStep elems acc e = .ok acc' := hstep
      rw [hstep2]
      simpa [Bind.bind, Except.bind] using herr

/-- C9: the edge pass of `_store_topology` rejects any edge that
directly joins two Fiber elements with a topology error naming both
fiber identifiers (on success no such edge exists; with resolvable
endpoints and such an edge present the pass returns that error), and on
success it has emitted one patch-link entry for every edge with no Fiber
endpoint — the edges not covered by a fiber's implicit two-edge
representation. -/
theorem store_edges_patch_and_fiber_fiber (elems : List Element)
    (edges : List ((String × String) × ℚ)) :
    (∀ ls, storeEdgePass elems edges = .ok ls →
      (∀ uv w a b, (uv, w) ∈ edges → findNode elems uv.1 = some a →
        findNode elems uv.2 = some b →
        ¬(isFiberElem a = true ∧ isFiberElem b = true))
      ∧ (∀ uv w a b, (uv, w) ∈ edges → findNode elems uv.1 = some a →
          findNode elems uv.2 = some b → isFiberElem a = false →
          isFiberElem b = false →
          ∃ pw, jsonYangLink ("patch\x7b" ++ uv.1 ++ ", " ++ uv.2 ++ "\x7d")
            uv.1 uv.2 none (some pw) ∈ ls))
    ∧ ((∀ uv w, (uv, w) ∈ edges →
          (findNode elems uv.1).isSome = true ∧
          (findNode elems uv.2).isSome = true) →
        (∃ uv w a b, (uv, w) ∈ edges ∧ findNode elems uv.1 = some a ∧
          findNode elems uv.2 = some b ∧ isFiberElem a = true ∧
          isFiberElem b = true) →
        ∃ u1 u2 w a b, ((u1, u2), w) ∈ edges ∧ findNode elems u1 = some a ∧
          findNode elems u2 = some b ∧ isFiberElem a = true ∧
          isFiberElem b = true ∧
          storeEdgePass elems edges = .error (.networkTopologyError
            ("Fiber connected to a Fiber: " ++ u1 ++ ", " ++ u2))) := by
  constructor
  · intro ls h
    exact ⟨storeEdgePass_go_no_ff elems edges [] ls h,
      storeEdgePass_go_patch elems edges [] ls h⟩
  · intro hres hff
    exact storeEdgePass_go_ff_error elems edges [] hres hff

/-- Witness for C9: the fixture network with a fiber-to-fiber edge makes
the edge pass fail with the topology error naming both fibers. -/
theorem store_edges_patch_and_fiber_fiber_witness :
    storeEdgePass netFiberFiber.nodes netFiberFiber.edges
      = .error (.networkTopologyError "Fiber connected to a Fiber: F1, F2") := by
  obtain ⟨u1, u2, w, a, b, hmem, hfa, hfb, hia, hib, herr⟩ :=
    (store_edges_patch_and_fiber_fiber netFiberFiber.nodes netFiberFiber.edges).2
      (by
        intro uv w h
        simp [netFiberFiber] at h
        rcases h with ⟨h1, _⟩ | ⟨h1, _⟩ | ⟨h1, _⟩ <;> subst h1 <;> exact ⟨rfl, rfl⟩)
      ⟨("F1", "F2"), 1 / 100,
        Element.fiber "F1" "SSMF" fiberParamsFx none,
        Element.fiber "F2" "SSMF" fiberParamsFx none,
        by simp [netFiberFiber], rfl, rfl, rfl, rfl⟩
  simp [netFiberFiber] at hmem
  rcases hmem with ⟨⟨h1, h2⟩, _⟩ | ⟨⟨h1, h2⟩, _⟩ | ⟨⟨h1, h2⟩, _⟩ <;> subst h1 <;> subst h2
  · rw [show findNode netFiberFiber.nodes "A"
        = some (Element.roadm "A" (some "R") roadmParamsFx none) from rfl] at hfa
    cases hfa
    simp [isFiberElem] at hia
  · exact herr
  · rw [show findNode netFiberFiber.nodes "B"
        = some (Element.roadm "B" (some "R") roadmParamsFx none) from rfl] at hfb
    cases hfb
    simp [isFiberElem] at hib

/-! ## Association-list lemmas -/

lemma alookup_aset_self {κ β : Type} [DecidableEq κ] :
    ∀ (l : List (κ × β)) (k : κ) (v : β), alookup (aset l k v) k = some v := by
  intro l k v
  induction l with
  | nil => simp [aset, alookup]
  | cons kv rest ih =>
    rw [aset]
    by_cases h : kv.1 = k
    · rw [if_pos h]
      simp [alookup]
    · rw [if_neg h]
      rw [alookup, if_neg h]
      exact ih

lemma alookup_aset_other {κ β : Type} [DecidableEq κ] :
    ∀ (l : List (κ × β)) (k k' : κ) (v : β), k ≠ k' →
      alookup (aset l k v) k' = alookup l k' := by
  intro l k k' v hne
  induction l with
  | nil => simp [aset, alookup, hne]
  | cons kv rest ih =>
    rw [aset]
    by_cases h : kv.1 = k
    · rw [if_pos h]
      have h2 : ¬(kv.1 = k') := by rw [h]; exact hne
      rw [alookup, alookup, if_neg hne, if_neg h2]
    · rw [if_neg h]
      rw [alookup, alookup]
      by_cases h2 : kv.1 = k'
      · rw [if_pos h2, if_pos h2]
      · rw [if_neg h2, if_neg h2]
        exact ih

lemma aset_eq_of_alookup {κ β : Type} [DecidableEq κ] :
    ∀ (l : List (κ × β)) (k : κ) (v : β), alookup l k = some v →
      aset l k v = l := by
  intro l k v h
  induction l with
  | nil => simp [alookup] at h
  | cons kv rest ih =>
    rw [alookup] at h
    rw [aset]
    by_cases hk : kv.1 = k
    · rw [if_pos hk] at h ⊢
      cases h
      rw [← hk]
    · rw [if_neg hk] at h ⊢
      rw [ih h]

lemma aset_keys_of_alookup {κ β : Type} [DecidableEq κ] :
    ∀ (l : List (κ × β)) (k : κ) (v w : β), alookup l k = some w →
      (aset l k v).map Prod.fst = l.map Prod.fst := by
  intro l k v w h
  induction l with
  | nil => simp [alookup] at h
  | cons kv rest ih =>
    rw [alookup] at h
    rw [aset]
    by_cases hk : kv.1 = k
    · rw [if_pos hk]
      simp [hk]
    · rw [if_neg hk] at h ⊢
      simp [ih h]

lemma alookup_mem_keys {κ β : Type} [DecidableEq κ] :
    ∀ (l : List (κ × β)) (k : κ) (v : β), alookup l k = some v →
      k ∈ l.map Prod.fst := by
  intro l k v h
  induction l with
  | nil => simp [alookup] at h
  | cons kv rest ih =>
    rw [alookup] at h
    by_cases hk : kv.1 = k
    · simp [← hk]
    · rw [if_neg hk] at h
      simp [ih h]

lemma alookup_none_of_not_mem {κ β : Type} [DecidableEq κ] :
    ∀ (l : List (κ × β)) (k : κ), k ∉ l.map Prod.fst → alookup l k = none := by
  intro l k h
  induction l with
  | nil => rfl
  | cons kv rest ih =>
    simp at h
    rw [alookup, if_neg (fun hh => h.1 hh.symm)]
    refine ih (fun hmem => ?_)
    obtain ⟨⟨k2, v2⟩, hmem2, hfst⟩ := List.mem_map.mp hmem
    exact h.2 v2 (by rwa [show k2 = k from hfst] at hmem2)

/-! ## String prefix lemmas -/

/-- Appending preserves the first character of a nonempty string. -/
lemma head_append (p k : String) (c : Char) (hp : p.data.head? = some c) :
    (p ++ k).data.head? = some c := by
  have hd : (p ++ k).data = p.data ++ k.data := String.data_append p k
  rw [hd]
  cases hp2 : p.data with
  | nil => rw [hp2] at hp; simp at hp
  | cons x xs =>
    rw [hp2] at hp
    simp at hp
    simp [hp]

/-- Strings starting with different characters differ. -/
lemma ne_of_head_ne (s t : String) (c c' : Char) (hs : s.data.head? = some c)
    (ht : t.data.head? = some c') (hcc : c ≠ c') : s ≠ t := by
  intro h
  rw [h, ht] at hs
  cases hs
  exact hcc rfl

/-- Left-appending is injective on the right argument. -/
lemma append_right_cancel (p s t : String) (h : p ++ s = p ++ t) : s = t := by
  have hd : p.data ++ s.data = p.data ++ t.data := by
    have h1 := congrArg String.data h
    rwa [String.data_append, String.data_append] at h1
  have hst := List.append_cancel_left hd
  exact congrArg String.mk hst

/-! ## Attribute-copy lemmas -/

/-- Unfolding `copyAttrs` by one source attribute. -/
lemma copyAttrs_cons (dst : AmpObj) (pre : String) (kv : String × AVal)
    (rest : List (String × AVal)) :
    copyAttrs dst pre (kv :: rest)
      = copyAttrs (aset dst (pre ++ kv.1) kv.2) pre rest := rfl

/-- `copyAttrs` leaves every key outside the prefixed image untouched. -/
lemma copyAttrs_lookup_other :
    ∀ (src : AmpObj) (dst : AmpObj) (pre : String) (k : String),
      (∀ kv ∈ src, pre ++ kv.1 ≠ k) →
      alookup (copyAttrs dst pre src) k = alookup dst k := by
  intro src
  induction src with
  | nil => intro dst pre k _; rfl
  | cons kv rest ih =>
    intro dst pre k hne
    rw [copyAttrs_cons]
    rw [ih (aset dst (pre ++ kv.1) kv.2) pre k
      (fun kv2 h2 => hne kv2 (List.mem_cons_of_mem _ h2))]
    exact alookup_aset_other dst (pre ++ kv.1) k kv.2 (hne kv (by simp))

/-- `copyAttrs` stores each source attribute under its prefixed name
(unique source keys). -/
lemma copyAttrs_lookup_self :
    ∀ (src : AmpObj) (dst : AmpObj) (pre : String) (k : String) (v : AVal),
      (src.map Prod.fst).Nodup → (k, v) ∈ src →
      alookup (copyAttrs dst pre src) (pre ++ k) = some v := by
  intro src
  induction src with
  | nil => intro dst pre k v _ hmem; simp at hmem
  | cons kv rest ih =>
    intro dst pre k v hnodup hmem
    rw [List.map_cons, List.nodup_cons] at hnodup
    rw [copyAttrs_cons]
    rcases List.mem_cons.mp hmem with heq | hrest
    · subst heq
      have hnot : ∀ kv2 ∈ rest, pre ++ kv2.1 ≠ pre ++ k := by
        intro kv2 h2 habs
        have heq2 : kv2.1 = k := append_right_cancel pre kv2.1 k habs
        have hmm : kv2.1 ∈ List.map Prod.fst rest := List.mem_map_of_mem Prod.fst h2
        rw [heq2] at hmm
        exact hnodup.1 hmm
      rw [copyAttrs_lookup_other rest (aset dst (pre ++ k) v) pre (pre ++ k) hnot]
      exact alookup_aset_self dst (pre ++ k) v
    · exact ih (aset dst (pre ++ kv.1) kv.2) pre k v hnodup.2 hrest

/-- `copyAttrs` is a no-op when every prefixed attribute already holds
its source value. -/
lemma copyAttrs_noop :
    ∀ (src : AmpObj) (dst : AmpObj) (pre : String),
      (∀ kv ∈ src, alookup dst (pre ++ kv.1) = some kv.2) →
      copyAttrs dst pre src = dst := by
  intro src
  induction src with
  | nil => intro dst pre _; rfl
  | cons kv rest ih =>
    intro dst pre h
    rw [copyAttrs_cons]
    rw [aset_eq_of_alookup dst (pre ++ kv.1) kv.2 (h kv (by simp))]
    exact ih dst pre (fun kv2 h2 => h kv2 (List.mem_cons_of_mem _ h2))

/-- The `dual_stage_model` attribute survives the full prefixed copy. -/
lemma fullCopy_dualStage (a P B : AmpObj) :
    (fullCopy a P B).dualStage = a.dualStage := by
  rw [fullCopy, AmpObj.dualStage, AmpObj.dualStage]
  rw [copyAttrs_lookup_other B (copyAttrs a "preamp_" P) "booster_" "dual_stage_model"
    (fun kv _ => ne_of_head_ne _ _ 'b' 'd' (head_append _ _ _ rfl) rfl (by decide))]
  rw [copyAttrs_lookup_other P a "preamp_" "dual_stage_model"
    (fun kv _ => ne_of_head_ne _ _ 'p' 'd' (head_append _ _ _ rfl) rfl (by decide))]

/-- The full prefixed copy is idempotent (unique source keys). -/
lemma fullCopy_idem (a P B : AmpObj) (hP : (P.map Prod.fst).Nodup)
    (hB : (B.map Prod.fst).Nodup) :
    fullCopy (fullCopy a P B) P B = fullCopy a P B := by
  rw [fullCopy]
  have hpre : copyAttrs (fullCopy a P B) "preamp_" P = fullCopy a P B := by
    apply copyAttrs_noop
    intro kv hkv
    rw [fullCopy]
    rw [copyAttrs_lookup_other B (copyAttrs a "preamp_" P) "booster_"
      ("preamp_" ++ kv.1)
      (fun kv2 _ => ne_of_head_ne _ _ 'b' 'p' (head_append _ _ _ rfl)
        (head_append _ _ _ rfl) (by decide))]
    exact copyAttrs_lookup_self P a "preamp_" kv.1 kv.2 hP (by simpa using hkv)
  rw [hpre]
  apply copyAttrs_noop
  intro kv hkv
  rw [fullCopy]
  exact copyAttrs_lookup_self B (copyAttrs a "preamp_" P) "booster_" kv.1 kv.2 hB
    (by simpa using hkv)

/-! ## Resolver lemmas -/

lemma resolvedFrom_refl (t0 : AmpTable) : ResolvedFrom t0 t0 :=
  ⟨rfl, fun _ => Or.inl rfl⟩

/-- Under `ResolvedFrom`, an entry that is missing in the original table
is still missing. -/
lemma resolvedFrom_none (t0 t : AmpTable) (h : ResolvedFrom t0 t) (n : String)
    (h0 : alookup t0 n = none) : alookup t n = none := by
  rcases h.2 n with heq | ⟨orig, _, _, _, _, h01, _⟩
  · rw [heq, h0]
  · rw [h01] at h0; cases h0

/-- Under `ResolvedFrom`, a non-composite original entry is unchanged. -/
lemma resolvedFrom_noncomposite (t0 t : AmpTable) (h : ResolvedFrom t0 t)
    (n : String) (a0 : AmpObj) (h0 : alookup t0 n = some a0)
    (hd : a0.dualStage = none) : alookup t n = some a0 := by
  rcases h.2 n with heq | ⟨orig, p, b, P, B, h01, h02, _, _, _⟩
  · rw [heq, h0]
  · rw [h01] at h0
    cases h0
    rw [h02] at hd
    cases hd

/-- Under `ResolvedFrom`, every present original entry is present and
keeps its `dual_stage_model`. -/
lemma resolvedFrom_lookup (t0 t : AmpTable) (h : ResolvedFrom t0 t) (n : String)
    (a0 : AmpObj) (h0 : alookup t0 n = some a0) :
    ∃ a, alookup t n = some a ∧ a.dualStage = a0.dualStage := by
  rcases h.2 n with heq | ⟨orig, p, b, P, B, h01, h02, h03, h04, h05⟩
  · exact ⟨a0, by rw [heq, h0], rfl⟩
  · rw [h01] at h0
    cases h0
    exact ⟨fullCopy a0 P B, h05, fullCopy_dualStage a0 P B⟩

/-- Case analysis of one `_fixup_dual_stage` iteration over a table that
is a (possibly partial) resolution of `t0`:
* a successful step yields another partial resolution and touches only
  its own entry;
* a raised exception is a `KeyError` for a name absent from `t0`;
* a composite entry whose references exist in `t0` steps successfully
  and ends up fully resolved;
* a composite entry with a missing reference always raises. -/
lemma resolveOne_cases (t0 t : AmpTable) (hwfd : WFDicts t0) (hwfr : WFRefs t0)
    (h : ResolvedFrom t0 t) (n : String) :
    (∀ t', resolveOne t n = .ok t' → ResolvedFrom t0 t'
      ∧ (∀ m, m ≠ n → alookup t' m = alookup t m))
    ∧ (∀ e, resolveOne t n = .error e → ∃ k, e = .keyError k ∧ alookup t0 k = none
        ∧ ∃ a0 p b, alookup t0 n = some a0 ∧ a0.dualStage = some (p, b)
          ∧ (p = k ∨ b = k))
    ∧ (∀ a0 p b, alookup t0 n = some a0 → a0.dualStage = some (p, b) →
        (∃ P, alookup t0 p = some P) → (∃ B, alookup t0 b = some B) →
        ∃ t', resolveOne t n = .ok t'
          ∧ ∀ P B, alookup t0 p = some P → alookup t0 b = some B →
              alookup t' n = some (fullCopy a0 P B))
    ∧ (∀ a0 p b, alookup t0 n = some a0 → a0.dualStage = some (p, b) →
        (alookup t0 p = none ∨ alookup t0 b = none) →
        ∃ e, resolveOne t n = .error e) := by
  cases hcase : alookup t n with
  | none =>
    have hok : resolveOne t n = .ok t := by simp only [resolveOne, hcase]
    have ht0 : alookup t0 n = none := by
      cases ht00 : alookup t0 n with
      | none => rfl
      | some a0 =>
        obtain ⟨a, ha, _⟩ := resolvedFrom_lookup t0 t h n a0 ht00
        rw [hcase] at ha
        cases ha
    refine ⟨?_, ?_, ?_, ?_⟩
    · intro t' ht'
      rw [hok] at ht'
      cases ht'
      exact ⟨h, fun _ _ => rfl⟩
    · intro e he
      rw [hok] at he
      cases he
    · intro a0 p b h0 _ _ _
      rw [ht0] at h0
      cases h0
    · intro a0 p b h0 _ _
      rw [ht0] at h0
      cases h0
  | some a =>
    cases hd : a.dualStage with
    | none =>
      have hok : resolveOne t n = .ok t := by simp only [resolveOne, hcase, hd]
      have hds0 : ∀ a0, alookup t0 n = some a0 → a0.dualStage = none := by
        intro a0 h0
        obtain ⟨a', ha', hda'⟩ := resolvedFrom_lookup t0 t h n a0 h0
        rw [hcase] at ha'
        cases ha'
        rw [← hda', hd]
      refine ⟨?_, ?_, ?_, ?_⟩
      · intro t' ht'
        rw [hok] at ht'
        cases ht'
        exact ⟨h, fun _ _ => rfl⟩
      · intro e he
        rw [hok] at he
        cases he
      · intro a0 p b h0 hd0 _ _
        rw [hds0 a0 h0] at hd0
        cases hd0
      · intro a0 p b h0 hd0 _
        rw [hds0 a0 h0] at hd0
        cases hd0
    | some pb =>
      obtain ⟨p, b⟩ := pb
      -- recover the original entry behind `a`
      obtain ⟨a0, ht0n, hd0, hrel⟩ :
          ∃ a0, alookup t0 n = some a0 ∧ a0.dualStage = some (p, b) ∧
            (a = a0 ∨ ∃ P0 B0, alookup t0 p = some P0 ∧ alookup t0 b = some B0 ∧
              a = fullCopy a0 P0 B0) := by
        rcases h.2 n with heq | ⟨orig, p0, b0, P0, B0, h01, h02, h03, h04, h05⟩
        · exact ⟨a, by rw [← heq, hcase], hd, Or.inl rfl⟩
        · rw [hcase] at h05
          have ha : a = fullCopy orig P0 B0 := Option.some.inj h05
          have hds : orig.dualStage = some (p, b) := by
            rw [← fullCopy_dualStage orig P0 B0, ← ha, hd]
          rw [h02] at hds
          have hpb : p0 = p ∧ b0 = b := by
            have := Option.some.inj hds
            exact ⟨congrArg Prod.fst this, congrArg Prod.snd this⟩
          rw [hpb.1] at h03
          rw [hpb.2] at h04
          exact ⟨orig, h01, by rw [h02, hpb.1, hpb.2], Or.inr ⟨P0, B0, h03, h04, ha⟩⟩
      have hdet : ∀ a0', alookup t0 n = some a0' → a0' = a0 := by
        intro a0' h0'
        rw [ht0n] at h0'
        exact (Option.some.inj h0').symm
      have hwn := hwfr n a0 p b ht0n hd0
      cases hp : alookup t p with
      | none =>
        have ht0p : alookup t0 p = none := by
          cases ht0p' : alookup t0 p with
          | none => rfl
          | some P =>
            have hPn : P.dualStage = none := hwn.1 P ht0p'
            have := resolvedFrom_noncomposite t0 t h p P ht0p' hPn
            rw [hp] at this
            cases this
        have herr : resolveOne t n = .error (.keyError p) := by
          simp only [resolveOne, hcase, hd, hp]
        refine ⟨?_, ?_, ?_, ?_⟩
        · intro t' ht'
          rw [herr] at ht'
          cases ht'
        · intro e he
          rw [herr] at he
          cases he
          exact ⟨p, rfl, ht0p, a0, p, b, ht0n, hd0, Or.inl rfl⟩
        · intro a0' p' b' h0' hd0' hex _
          have := hdet a0' h0'
          subst this
          rw [hd0] at hd0'
          have hpp : p' = p := (congrArg Prod.fst (Option.some.inj hd0')).symm
          obtain ⟨P, hP⟩ := hex
          rw [hpp, ht0p] at hP
          cases hP
        · intro a0' p' b' h0' hd0' _
          exact ⟨.keyError p, herr⟩
      | some P =>
        have ht0p : alookup t0 p = some P := by
          rcases h.2 p with heq | ⟨orig, pp, bb, PP, BB, h01, h02, _, _, h05⟩
          · rw [← heq, hp]
          · have hPn : orig.dualStage = none := hwn.1 orig h01
            rw [h02] at hPn
            cases hPn
        cases hb : alookup t b with
        | none =>
          have ht0b : alookup t0 b = none := by
            cases ht0b' : alookup t0 b with
            | none => rfl
            | some B =>
              have hBn : B.dualStage = none := hwn.2 B ht0b'
              have := resolvedFrom_noncomposite t0 t h b B ht0b' hBn
              rw [hb] at this
              cases this
          have herr : resolveOne t n = .error (.keyError b) := by
            simp only [resolveOne, hcase, hd, hp, hb]
          refine ⟨?_, ?_, ?_, ?_⟩
          · intro t' ht'
            rw [herr] at ht'
            cases ht'
          · intro e he
            rw [herr] at he
            cases he
            exact ⟨b, rfl, ht0b, a0, p, b, ht0n, hd0, Or.inr rfl⟩
          · intro a0' p' b' h0' hd0' _ hex
            have := hdet a0' h0'
            subst this
            rw [hd0] at hd0'
            have hbb : b' = b := (congrArg Prod.snd (Option.some.inj hd0')).symm
            obtain ⟨B, hB⟩ := hex
            rw [hbb, ht0b] at hB
            cases hB
          · intro a0' p' b' h0' hd0' _
            exact ⟨.keyError b, herr⟩
        | some B =>
          have ht0b : alookup t0 b = some B := by
            rcases h.2 b with heq | ⟨orig, pp, bb, PP, BB, h01, h02, _, _, h05⟩
            · rw [← heq, hb]
            · have hBn : orig.dualStage = none := hwn.2 orig h01
              rw [h02] at hBn
              cases hBn
          have hok : resolveOne t n = .ok (aset t n (fullCopy a P B)) := by
            simp only [resolveOne, hcase, hd, hp, hb]
          have hfc : fullCopy a P B = fullCopy a0 P B := by
            rcases hrel with rfl | ⟨P0, B0, hP0, hB0, ha⟩
            · rfl
            · rw [ht0p] at hP0
              rw [ht0b] at hB0
              cases hP0
              cases hB0
              rw [ha]
              exact fullCopy_idem a0 P B (hwfd p P ht0p) (hwfd b B ht0b)
          have hres : ResolvedFrom t0 (aset t n (fullCopy a P B)) := by
            constructor
            · rw [aset_keys_of_alookup t n (fullCopy a P B) a hcase]
              exact h.1
            · intro m
              by_cases hm : m = n
              · subst hm
                refine Or.inr ⟨a0, p, b, P, B, ht0n, hd0, ht0p, ht0b, ?_⟩
                rw [alookup_aset_self t m (fullCopy a P B), hfc]
              · rw [alookup_aset_other t n m (fullCopy a P B)
                  (fun hh => hm hh.symm)]
                exact h.2 m
          refine ⟨?_, ?_, ?_, ?_⟩
          · intro t' ht'
            rw [hok] at ht'
            cases ht'
            exact ⟨hres, fun m hm => alookup_aset_other t n m (fullCopy a P B)
              (fun hh => hm hh.symm)⟩
          · intro e he
            rw [hok] at he
            cases he
          · intro a0' p' b' h0' hd0' _ _
            have := hdet a0' h0'
            subst this
            rw [hd0] at hd0'
            have hpp : p' = p := (congrArg Prod.fst (Option.some.inj hd0')).symm
            have hbb : b' = b := (congrArg Prod.snd (Option.some.inj hd0')).symm
            subst hpp
            subst hbb
            refine ⟨aset t n (fullCopy a P B), hok, ?_⟩
            intro P' B' hP' hB'
            rw [ht0p] at hP'
            rw [ht0b] at hB'
            cases hP'
            cases hB'
            rw [alookup_aset_self t n (fullCopy a P B), hfc]
          · intro a0' p' b' h0' hd0' hmiss
            have := hdet a0' h0'
            subst this
            rw [hd0] at hd0'
            have hpp : p' = p := (congrArg Prod.fst (Option.some.inj hd0')).symm
            have hbb : b' = b := (congrArg Prod.snd (Option.some.inj hd0')).symm
            subst hpp
            subst hbb
            rcases hmiss with hmp | hmb
            · rw [ht0p] at hmp
              cases hmp
            · rw [ht0b] at hmb
              cases hmb

/-- Under `ResolvedFrom`, every present entry comes from a present
original entry with the same `dual_stage_model`. -/
lemma resolvedFrom_rev (t0 t : AmpTable) (h : ResolvedFrom t0 t) (m : String)
    (a : AmpObj) (hm : alookup t m = some a) :
    ∃ a0, alookup t0 m = some a0 ∧ a0.dualStage = a.dualStage := by
  rcases h.2 m with heq | ⟨orig, p, b, P, B, h01, h02, h03, h04, h05⟩
  · exact ⟨a, by rw [← heq, hm], rfl⟩
  · rw [hm] at h05
    have ha : a = fullCopy orig P B := Option.some.inj h05
    refine ⟨orig, h01, ?_⟩
    rw [ha, fullCopy_dualStage]

/-- The whole resolver loop keeps the table a partial resolution of the
original and raises only `KeyError`s for names absent from it. -/
lemma fixupGo_resolvedFrom (t0 : AmpTable) (hwfd : WFDicts t0) (hwfr : WFRefs t0) :
    ∀ (ns : List String) (t : AmpTable), ResolvedFrom t0 t →
      ResolvedFrom t0 (fixupGo ns t).2
      ∧ (∀ e, (fixupGo ns t).1 = some e →
          ∃ k, e = .keyError k ∧ alookup t0 k = none) := by
  intro ns
  induction ns with
  | nil =>
    intro t h
    refine ⟨h, ?_⟩
    intro e he
    simp only [fixupGo] at he
    cases he
  | cons m rest ih =>
    intro t h
    cases hres : resolveOne t m with
    | error e =>
      have heq : fixupGo (m :: rest) t = (some e, t) := by
        simp only [fixupGo, hres]
      rw [heq]
      refine ⟨h, ?_⟩
      intro e' he'
      cases he'
      obtain ⟨k, hk, hk0, _⟩ := (resolveOne_cases t0 t hwfd hwfr h m).2.1 e hres
      exact ⟨k, hk, hk0⟩
    | ok t' =>
      have heq : fixupGo (m :: rest) t = fixupGo rest t' := by
        simp only [fixupGo, hres]
      rw [heq]
      exact ih t' ((resolveOne_cases t0 t hwfd hwfr h m).1 t' hres).1

/-- When some composite of the original table has a missing reference
whose name is scheduled, the resolver loop raises. -/
lemma fixupGo_errors (t0 : AmpTable) (hwfd : WFDicts t0) (hwfr : WFRefs t0)
    (n : String) (a0 : AmpObj) (p b : String)
    (h0 : alookup t0 n = some a0) (hd0 : a0.dualStage = some (p, b))
    (hmiss : alookup t0 p = none ∨ alookup t0 b = none) :
    ∀ (ns : List String) (t : AmpTable), ResolvedFrom t0 t → n ∈ ns →
      ((fixupGo ns t).1).isSome = true := by
  intro ns
  induction ns with
  | nil => intro t _ hmem; simp at hmem
  | cons m rest ih =>
    intro t h hmem
    cases hres : resolveOne t m with
    | error e => simp only [fixupGo, hres]; rfl
    | ok t' =>
      have h' := ((resolveOne_cases t0 t hwfd hwfr h m).1 t' hres).1
      simp only [fixupGo, hres]
      rcases List.mem_cons.mp hmem with heq | hrest
      · subst heq
        obtain ⟨e, herr⟩ :=
          (resolveOne_cases t0 t hwfd hwfr h n).2.2.2 a0 p b h0 hd0 hmiss
        rw [herr] at hres
        cases hres
      · exact ih t' h' hrest

/-- When every composite reference resolves, the resolver loop never
raises. -/
lemma fixupGo_ok (t0 : AmpTable) (hwfd : WFDicts t0) (hwfr : WFRefs t0)
    (hre : RefsExist t0) :
    ∀ (ns : List String) (t : AmpTable), ResolvedFrom t0 t →
      (fixupGo ns t).1 = none := by
  intro ns
  induction ns with
  | nil => intro t _; rfl
  | cons m rest ih =>
    intro t h
    cases hres : resolveOne t m with
    | error e =>
      exfalso
      obtain ⟨k, _, hk0, a0, p, b, h0, hd0, hpk⟩ :=
        (resolveOne_cases t0 t hwfd hwfr h m).2.1 e hres
      obtain ⟨⟨P, hP⟩, ⟨B, hB⟩⟩ := hre m a0 p b h0 hd0
      rcases hpk with rfl | rfl
      · rw [hP] at hk0; cases hk0
      · rw [hB] at hk0; cases hk0
    | ok t' =>
      simp only [fixupGo, hres]
      exact ih t' ((resolveOne_cases t0 t hwfd hwfr h m).1 t' hres).1

/-- A fully resolved entry stays resolved across the remainder of the
loop. -/
lemma fixupGo_entry (t0 : AmpTable) (hwfd : WFDicts t0) (hwfr : WFRefs t0)
    (n p b : String) (a0 P B : AmpObj)
    (h0 : alookup t0 n = some a0) (hd0 : a0.dualStage = some (p, b))
    (hP : alookup t0 p = some P) (hB : alookup t0 b = some B) :
    ∀ (ns : List String) (t : AmpTable), ResolvedFrom t0 t →
      alookup t n = some (fullCopy a0 P B) →
      alookup (fixupGo ns t).2 n = some (fullCopy a0 P B) := by
  intro ns
  induction ns with
  | nil => intro t _ hentry; exact hentry
  | cons m rest ih =>
    intro t h hentry
    cases hres : resolveOne t m with
    | error e =>
      simp only [fixupGo, hres]
      exact hentry
    | ok t' =>
      simp only [fixupGo, hres]
      have hcs := resolveOne_cases t0 t hwfd hwfr h m
      have h' := (hcs.1 t' hres).1
      by_cases hmn : m = n
      · subst hmn
        obtain ⟨t'', hok, hprop⟩ :=
          hcs.2.2.1 a0 p b h0 hd0 ⟨P, hP⟩ ⟨B, hB⟩
        rw [hok] at hres
        injection hres with ht2
        subst ht2
        exact ih t'' h' (hprop P B hP hB)
      · have hun : alookup t' n = alookup t n :=
          (hcs.1 t' hres).2 n (fun hh => hmn hh.symm)
        exact ih t' h' (by rw [hun]; exact hentry)

/-- After the loop has processed a composite's name (with all references
present), that entry is fully resolved. -/
lemma fixupGo_resolves (t0 : AmpTable) (hwfd : WFDicts t0) (hwfr : WFRefs t0)
    (hre : RefsExist t0) :
    ∀ (ns : List String) (t : AmpTable), ResolvedFrom t0 t →
      ∀ n ∈ ns, ∀ a0 p b, alookup t0 n = some a0 → a0.dualStage = some (p, b) →
        ∃ P B, alookup t0 p = some P ∧ alookup t0 b = some B ∧
          alookup (fixupGo ns t).2 n = some (fullCopy a0 P B) := by
  intro ns
  induction ns with
  | nil => intro t _ n hmem; simp at hmem
  | cons m rest ih =>
    intro t h n hmem a0 p b h0 hd0
    cases hres : resolveOne t m with
    | error e =>
      exfalso
      obtain ⟨k, _, hk0, a0', p', b', h0', hd0', hpk⟩ :=
        (resolveOne_cases t0 t hwfd hwfr h m).2.1 e hres
      obtain ⟨⟨P, hP⟩, ⟨B, hB⟩⟩ := hre m a0' p' b' h0' hd0'
      rcases hpk with rfl | rfl
      · rw [hP] at hk0; cases hk0
      · rw [hB] at hk0; cases hk0
    | ok t' =>
      simp only [fixupGo, hres]
      have hcs := resolveOne_cases t0 t hwfd hwfr h m
      have h' := (hcs.1 t' hres).1
      rcases List.mem_cons.mp hmem with heq | hrest
      · subst heq
        obtain ⟨⟨P, hP⟩, ⟨B, hB⟩⟩ := hre n a0 p b h0 hd0
        obtain ⟨t'', hok, hprop⟩ := hcs.2.2.1 a0 p b h0 hd0 ⟨P, hP⟩ ⟨B, hB⟩
        rw [hok] at hres
        injection hres with ht2
        subst ht2
        exact ⟨P, B, hP, hB, fixupGo_entry t0 hwfd hwfr n p b a0 P B h0 hd0 hP hB
          rest t'' h' (hprop P B hP hB)⟩
      · exact ih t' h' n hrest a0 p b h0 hd0

/-- C3 counterexample: with the healthy composite `C1` listed before the
dangling composite `C2`, `_fixup_dual_stage` raises the unresolved
reference, yet `C1` has already been mutated — the claim's "state of
every other entry is unchanged on error" is false. -/
theorem dual_stage_error_mutates_earlier_composite :
    (fixupDualStage mixedAmpTable).1 = some (Err.keyError "missing")
    ∧ alookup (fixupDualStage mixedAmpTable).2 "C1" ≠ alookup mixedAmpTable "C1" :=
  ⟨rfl, by decide⟩

/-- C3 (amended): when a composite names a preamp or booster absent from
the table, `_fixup_dual_stage` raises a `KeyError` (the unresolved
reference) for a name absent from the table, and the table left behind
is never partially mutated: its keys are unchanged and each entry is
either its original value or a fully resolved composite (complete
`preamp_` and `booster_` copies); composites resolved before the failure
do remain mutated. -/
theorem dual_stage_error_no_partial_mutation (t0 : AmpTable)
    (hwfd : WFDicts t0) (hwfr : WFRefs t0)
    (n : String) (a : AmpObj) (p b : String)
    (hn : alookup t0 n = some a) (hd : a.dualStage = some (p, b))
    (hmiss : alookup t0 p = none ∨ alookup t0 b = none) :
    (∃ k, (fixupDualStage t0).1 = some (Err.keyError k) ∧ alookup t0 k = none)
    ∧ ResolvedFrom t0 (fixupDualStage t0).2 := by
  have hbase := resolvedFrom_refl t0
  have hsome := fixupGo_errors t0 hwfd hwfr n a p b hn hd hmiss
    (t0.map Prod.fst) t0 hbase (alookup_mem_keys t0 n a hn)
  obtain ⟨e, he⟩ := Option.isSome_iff_exists.mp hsome
  have hmain := fixupGo_resolvedFrom t0 hwfd hwfr (t0.map Prod.fst) t0 hbase
  obtain ⟨k, hk, hk0⟩ := hmain.2 e he
  rw [hk] at he
  exact ⟨⟨k, he, hk0⟩, hmain.1⟩

/-- Witness for C3 (amended): on the fixture table the resolver reports
the missing name and the dangling composite `C2` itself is untouched. -/
theorem dual_stage_error_no_partial_mutation_witness :
    (fixupDualStage mixedAmpTable).1 = some (Err.keyError "missing")
    ∧ alookup (fixupDualStage mixedAmpTable).2 "C2" = some badCompositeObj := by
  have hwfd : WFDicts mixedAmpTable := by
    intro n a h
    simp only [mixedAmpTable, alookup] at h
    split_ifs at h with h1 h2 h3
    · injection h with h4; subst h4; decide
    · injection h with h4; subst h4; decide
    · injection h with h4; subst h4; decide
  have hwfr : WFRefs mixedAmpTable := by
    intro n a p b h hd
    simp only [mixedAmpTable, alookup] at h
    split_ifs at h with h1 h2 h3
    · injection h with h4
      subst h4
      have hz : simpleAmpObj.dualStage = none := rfl
      rw [hz] at hd
      cases hd
    · injection h with h4
      subst h4
      have hz : goodCompositeObj.dualStage = some ("P", "P") := rfl
      rw [hz] at hd
      injection hd with hd2
      have hp : p = "P" := (congrArg Prod.fst hd2).symm
      have hb : b = "P" := (congrArg Prod.snd hd2).symm
      subst hp
      subst hb
      constructor <;> intro X hX <;>
        · have hz2 : alookup mixedAmpTable "P" = some simpleAmpObj := rfl
          rw [hz2] at hX
          injection hX with hX2
          subst hX2
          rfl
    · injection h with h4
      subst h4
      have hz : badCompositeObj.dualStage = some ("missing", "P") := rfl
      rw [hz] at hd
      injection hd with hd2
      have hp : p = "missing" := (congrArg Prod.fst hd2).symm
      have hb : b = "P" := (congrArg Prod.snd hd2).symm
      subst hp
      subst hb
      constructor
      · intro X hX
        have hz2 : alookup mixedAmpTable "missing" = (none : Option AmpObj) := rfl
        rw [hz2] at hX
        cases hX
      · intro X hX
        have hz2 : alookup mixedAmpTable "P" = some simpleAmpObj := rfl
        rw [hz2] at hX
        injection hX with hX2
        subst hX2
        rfl
  obtain ⟨⟨k, hk, hk0⟩, hRF⟩ := dual_stage_error_no_partial_mutation mixedAmpTable
    hwfd hwfr "C2" badCompositeObj "missing" "P" rfl rfl (Or.inl rfl)
  refine ⟨rfl, ?_⟩
  rcases hRF.2 "C2" with heq | ⟨orig, p, b, P, B, h01, h02, h03, h04, h05⟩
  · rw [heq]; rfl
  · exfalso
    have h01' : some orig = some badCompositeObj := by rw [← h01]; rfl
    injection h01' with ho
    subst ho
    have h02' : some (p, b) = some ("missing", "P") := by rw [← h02]; rfl
    injection h02' with h02b
    have hp : p = "missing" := congrArg Prod.fst h02b
    rw [hp] at h03
    rw [show alookup mixedAmpTable "missing" = (none : Option AmpObj) from rfl] at h03
    cases h03

/-- C6: over a table whose composites reference only existing
non-composite entries, `_fixup_dual_stage` succeeds and is idempotent —
resolving the resolved table again returns it unchanged, so the
`preamp_`/`booster_` attribute sets are the same after one or two runs. -/
theorem dual_stage_resolution_idempotent (t0 : AmpTable)
    (hwfd : WFDicts t0) (hwfr : WFRefs t0) (hre : RefsExist t0) :
    ∃ r, fixupDualStage t0 = (none, r) ∧ fixupDualStage r = (none, r) := by
  have hbase := resolvedFrom_refl t0
  have h1 : (fixupGo (t0.map Prod.fst) t0).1 = none :=
    fixupGo_ok t0 hwfd hwfr hre (t0.map Prod.fst) t0 hbase
  have hR : ResolvedFrom t0 (fixupGo (t0.map Prod.fst) t0).2 :=
    (fixupGo_resolvedFrom t0 hwfd hwfr (t0.map Prod.fst) t0 hbase).1
  set r := (fixupGo (t0.map Prod.fst) t0).2 with hrdef
  have hid : ∀ m, resolveOne r m = .ok r := by
    intro m
    cases hm : alookup r m with
    | none => simp only [resolveOne, hm]
    | some a =>
      cases hda : a.dualStage with
      | none => simp only [resolveOne, hm, hda]
      | some pb =>
        obtain ⟨p, b⟩ := pb
        obtain ⟨a0, h0, hd0⟩ := resolvedFrom_rev t0 r hR m a hm
        rw [hda] at hd0
        obtain ⟨P, B, hP, hB, hentry⟩ := fixupGo_resolves t0 hwfd hwfr hre
          (t0.map Prod.fst) t0 hbase m (alookup_mem_keys t0 m a0 h0) a0 p b h0 hd0
        rw [hm] at hentry
        have ha : a = fullCopy a0 P B := Option.some.inj hentry
        have hPn : P.dualStage = none := (hwfr m a0 p b h0 hd0).1 P hP
        have hBn : B.dualStage = none := (hwfr m a0 p b h0 hd0).2 B hB
        have hrp : alookup r p = some P :=
          resolvedFrom_noncomposite t0 r hR p P hP hPn
        have hrb : alookup r b = some B :=
          resolvedFrom_noncomposite t0 r hR b B hB hBn
        have hfc : fullCopy a P B = a := by
          rw [ha]
          exact fullCopy_idem a0 P B (hwfd p P hP) (hwfd b B hB)
        simp only [resolveOne, hm, hda, hrp, hrb]
        rw [hfc, aset_eq_of_alookup r m a hm]
  have hid2 : ∀ ns, fixupGo ns r = (none, r) := by
    intro ns
    induction ns with
    | nil => rfl
    | cons m rest ih =>
      simp only [fixupGo, hid m]
      exact ih
  refine ⟨r, ?_, hid2 (r.map Prod.fst)⟩
  show fixupGo (t0.map Prod.fst) t0 = (none, r)
  have hsplit : fixupGo (t0.map Prod.fst) t0
      = ((fixupGo (t0.map Prod.fst) t0).1, r) := rfl
  rw [hsplit, h1]

/-- Witness for C6: the fixture table resolves in one pass to
`resolvedHealthyTable` and resolving that again is the identity. -/
theorem dual_stage_resolution_idempotent_witness :
    fixupDualStage healthyAmpTable = (none, resolvedHealthyTable)
    ∧ fixupDualStage resolvedHealthyTable = (none, resolvedHealthyTable) := by
  have hwfd : WFDicts healthyAmpTable := by
    intro n a h
    simp only [healthyAmpTable, alookup] at h
    split_ifs at h with h1 h2
    · injection h with h4; subst h4; decide
    · injection h with h4; subst h4; decide
  have hwfr : WFRefs healthyAmpTable := by
    intro n a p b h hd
    simp only [healthyAmpTable, alookup] at h
    split_ifs at h with h1 h2
    · injection h with h4
      subst h4
      have hz : simpleAmpObj.dualStage = none := rfl
      rw [hz] at hd
      cases hd
    · injection h with h4
      subst h4
      have hz : goodCompositeObj.dualStage = some ("P", "P") := rfl
      rw [hz] at hd
      injection hd with hd2
      have hp : p = "P" := (congrArg Prod.fst hd2).symm
      have hb : b = "P" := (congrArg Prod.snd hd2).symm
      subst hp
      subst hb
      constructor <;> intro X hX <;>
        · have hz2 : alookup healthyAmpTable "P" = some simpleAmpObj := rfl
          rw [hz2] at hX
          injection hX with hX2
          subst hX2
          rfl
  have hre : RefsExist healthyAmpTable := by
    intro n a p b h hd
    simp only [healthyAmpTable, alookup] at h
    split_ifs at h with h1 h2
    · injection h with h4
      subst h4
      have hz : simpleAmpObj.dualStage = none := rfl
      rw [hz] at hd
      cases hd
    · injection h with h4
      subst h4
      have hz : goodCompositeObj.dualStage = some ("P", "P") := rfl
      rw [hz] at hd
      injection hd with hd2
      have hp : p = "P" := (congrArg Prod.fst hd2).symm
      have hb : b = "P" := (congrArg Prod.snd hd2).symm
      subst hp
      subst hb
      exact ⟨⟨simpleAmpObj, rfl⟩, ⟨simpleAmpObj, rfl⟩⟩
  obtain ⟨r, h1, h2⟩ :=
    dual_stage_resolution_idempotent healthyAmpTable hwfd hwfr hre
  have hcomp : fixupDualStage healthyAmpTable = (none, resolvedHealthyTable) := by
    decide
  have hr : r = resolvedHealthyTable := by
    rw [h1] at hcomp
    injection hcomp with _ hsnd
  subst hr
  exact ⟨h1, h2⟩

/-! ## Equipment round-trip -/

/-- C1 counterexample: a polynomial-fit amplifier with a non-trivial
96-entry gain ripple does not survive `load(store(·))` field-for-field:
`_store_equipment_edfa` never emits the three per-frequency spectra
(`FIXME` in source), so the reloaded record's `gain_ripple` is the
one-element zero sequence — a loss not among the documented lossy
fallbacks (§4.6 documents only the transceiver-type substitution and the
NF-model omission). -/
theorem equipment_roundtrip_drops_gain_ripple :
    advancedAmp.gain_ripple = some (List.replicate 96 1)
    ∧ ((storeEquipmentEdfa "std-edfa" advancedAmp).bind transformEdfa).map
        Amp.gain_ripple = .ok (some [0])
    ∧ (some [0] : Option (List ℚ)) ≠ advancedAmp.gain_ripple := by
  refine ⟨rfl, rfl, ?_⟩
  decide

/-- C1 (amended): for a polynomial-fit (advanced-model) amplifier
record, `load(store(·))` reproduces every field exactly except the three
per-frequency spectra, which the serializer drops and the loader
reconstitutes as the one-element zero sequence `[0]`. -/
theorem equipment_roundtrip_advanced_amp (name : String) (a : Amp)
    (fmin fmax gfm pmax : ℚ) (co : ℚ × ℚ × ℚ × ℚ)
    (h1 : a.dual_stage_model = none) (h2 : a.nf_model = none)
    (h3 : a.type_def = some "advanced_model")
    (h4 : a.f_min = some fmin) (h5 : a.f_max = some fmax)
    (h6 : a.gain_flatmax = some gfm) (h7 : a.p_max = some pmax)
    (h8 : a.nf_fit_coeff = some co)
    (h9 : a.out_voa_auto = none) (h10 : a.allowed_for_design = true)
    (h11 : a.raman = false) (h12 : a.type_variety = name) :
    (storeEquipmentEdfa name a).bind transformEdfa
      = .ok { a with
          gain_ripple := some [0], dgt := some [0], nf_ripple := some [0] } := by
  have hTHZ : (THZ : ℚ) ≠ 0 := by norm_num [THZ]
  obtain ⟨co1, co2, co3, co4⟩ := co
  cases a
  simp only at h1 h2 h3 h4 h5 h6 h7 h8 h9 h10 h11 h12
  subst h1
  subst h2
  subst h3
  subst h4
  subst h5
  subst h6
  subst h7
  subst h8
  subst h9
  subst h10
  subst h11
  subst h12
  simp only [storeEquipmentEdfa, transformEdfa, reqAttr, reqQ, extractPerSpectrum,
    Bind.bind, Except.bind, pure, Except.pure, if_true, if_pos rfl]
  rw [div_mul_cancel₀ fmin hTHZ, div_mul_cancel₀ fmax hTHZ]

/-- Witness for C1 (amended): the fixture amplifier round-trips onto
itself with the spectra reset to `[0]`. -/
theorem equipment_roundtrip_advanced_amp_witness :
    (storeEquipmentEdfa "std-edfa" advancedAmp).bind transformEdfa
      = .ok { advancedAmp with
          gain_ripple := some [0], dgt := some [0], nf_ripple := some [0] } :=
  equipment_roundtrip_advanced_amp "std-edfa" advancedAmp
    (1913 / 10 * THZ) (1961 / 10 * THZ) 26 21 (1 / 100, 0, 0, 6)
    rfl rfl rfl rfl rfl rfl rfl rfl rfl rfl rfl rfl

end GnpyYang
